import Mathlib

/-!
Verification of the PageTurn.js minimal DOM helper (`src/unnamed/part_002`,
the module `Minimal jQuery-like DOM helper for PageTurn.js`).

The helper is shallowly embedded: JavaScript objects that the helper
allocates (plain records, `new Map()` values, the live-view `Proxy`, bound
functions) are represented by numeric object ids drawn from an allocation
counter, JS `Map`s are association lists with JS `Map` semantics
(insertion order preserved, `set` of an existing key updates in place),
and DOM facilities that the helper merely consults (computed style,
layout boxes, `querySelectorAll`) are oracle parameters.  Handlers are
abstract numeric ids; a trigger dispatch is parameterised by the value each
handler returns, and delivery is recorded as an explicit trace.
-/

namespace PageTurn

/-- Kind of a `DOMNode` (`Element | Document | Window`). -/
inductive NodeKind where
  | element
  | documentNode
  | windowNode
deriving DecidableEq, Repr

/-- An externally owned DOM node, identified by id. -/
structure Node where
  id : Nat
  kind : NodeKind
deriving DecidableEq, Repr

/-- Per-node event state (interface `EventStore` in the source):
`buckets` maps an event name to its ordered handler set, `native` maps an
event name to the single installed native listener bridge (listener ids
are allocated like object ids). -/
structure EventStore where
  buckets : List (String × List Nat)
  native : List (String × Nat)
deriving DecidableEq, Repr

/-- JavaScript values the helper stores and passes around.  `obj` is a
reference into the heap; `store` is an `EventStore` object, which the
source keeps inside the same per-node data map under the reserved string
key `EVENT_STORE_KEY`. -/
inductive Value where
  | undef
  | null
  | bool (b : Bool)
  | num (n : Int)
  | str (s : String)
  | arr (elems : List Value)
  | obj (oid : Nat)
  | store (es : EventStore)

/-- JavaScript truthiness for the embedded values (floating point `NaN`
is not modelled; numbers are integers). -/
def truthy : Value → Bool
  | .undef => false
  | .null => false
  | .bool b => b
  | .num n => decide (n ≠ 0)
  | .str s => decide (s ≠ "")
  | .arr _ => true
  | .obj _ => true
  | .store _ => true

/-- Association-list lookup; JS `Map.get` (first — and only — entry of
the key). -/
def aget {κ ν : Type} [DecidableEq κ] : List (κ × ν) → κ → Option ν
  | [], _ => none
  | e :: tl, k => if e.1 = k then some e.2 else aget tl k

/-- Association-list update; JS `Map.set`: an existing key keeps its
position, a new key is appended, preserving insertion order. -/
def aset {κ ν : Type} [DecidableEq κ] : List (κ × ν) → κ → ν → List (κ × ν)
  | [], k, v => [(k, v)]
  | e :: tl, k, v => if e.1 = k then (k, v) :: tl else e :: aset tl k v

/-- Association-list removal; JS `Map.delete`. -/
def adel {κ ν : Type} [DecidableEq κ] : List (κ × ν) → κ → List (κ × ν)
  | [], _ => []
  | e :: tl, k => if e.1 = k then adel tl k else e :: adel tl k

/-- JS `Map.has`. -/
def ahas {κ ν : Type} [DecidableEq κ] (m : List (κ × ν)) (k : κ) : Bool :=
  (aget m k).isSome

/-- A per-node data map (`ElementDataMap`).  String keys live in
`entries` (including the reserved `EVENT_STORE_KEY`); the symbol key
`DATA_PROXY_KEY` is a separate slot because a symbol never collides with
a string key. -/
structure ElementDataMap where
  entries : List (String × Value)
  proxy : Option Nat

/-- The string key the source stores the event state under. -/
def EVENT_STORE_KEY : String := "__pageturn.events__"

/-- Heap objects allocated by the helper. -/
inductive HeapObj where
  | jsMap (entries : List (String × Value))
  | proxyView (node : Nat)
  | record (fields : List (String × Value))
  | boundFn (role : String) (node : Nat)

/-- Global mutable state: the `dataStore` weak map (keyed by node id),
the object heap, the native listeners currently attached to each node
(via `addEventListener`), and the allocation counter. -/
structure State where
  dataStore : List (Nat × ElementDataMap)
  heap : List (Nat × HeapObj)
  listeners : List (Nat × List (String × Nat))
  nextOid : Nat

/-- The state before any helper call. -/
def initState : State := ⟨[], [], [], 0⟩

/-- Allocate a fresh heap object. -/
def State.alloc (s : State) (o : HeapObj) : Nat × State :=
  (s.nextOid, { s with heap := (s.nextOid, o) :: s.heap, nextOid := s.nextOid + 1 })

/-- Read a node's data map (`dataStore.get`). -/
def State.mapOf (s : State) (nid : Nat) : Option ElementDataMap :=
  aget s.dataStore nid

/-- Write a node's data map (`dataStore.set`). -/
def State.setMap (s : State) (nid : Nat) (dm : ElementDataMap) : State :=
  { s with dataStore := aset s.dataStore nid dm }

/-- Source `getNodeData`: create-on-first-use read of a node's map. -/
def getNodeData (s : State) (n : Node) : ElementDataMap × State :=
  match s.mapOf n.id with
  | some dm => (dm, s)
  | none => (⟨[], none⟩, s.setMap n.id ⟨[], none⟩)

/-- Source `getExistingNodeData`: read without creating. -/
def getExistingNodeData (s : State) (n : Node) : Option ElementDataMap :=
  s.mapOf n.id

/-- The cast `data.get(EVENT_STORE_KEY) as EventStore | undefined` of the
source, on the value actually found.  A truthy value that is not an
`EventStore` would make the source fault downstream; the modelled
operations never store one under the reserved key. -/
def asEventStore : Value → Option EventStore
  | .store es => some es
  | _ => none

/-- Source `getEventStore`: the node's event state, if any. -/
def getEventStore (s : State) (n : Node) : Option EventStore :=
  match getExistingNodeData s n with
  | none => none
  | some dm => asEventStore ((aget dm.entries EVENT_STORE_KEY).getD .undef)

/-- Store well-formedness: whatever sits under the reserved key is the
event store (or falsy, which the source treats as absent).  All states
reachable through the helper satisfy this; it rules out the caller
writing a foreign truthy value under `EVENT_STORE_KEY` through `data`,
on which the source itself would fault. -/
def storeSlotOk (dm : ElementDataMap) : Bool :=
  match aget dm.entries EVENT_STORE_KEY with
  | none => true
  | some (.store _) => true
  | some v => !truthy v

/-- All nodes' reserved slots are well formed. -/
def State.wfStores (s : State) : Bool :=
  s.dataStore.all (fun e => storeSlotOk e.2)

/-- A Handle (`DOMElement` instance): the ordered node list captured at
construction.  The source's `syncIndexes` only mirrors the list onto
numeric properties of the instance and is presentation-only, so it is
not modelled. -/
structure DOMElement where
  nodes : List Node
deriving DecidableEq, Repr

/-- Source `isElementLike` applied through `elements()`. -/
def DOMElement.elementsOf (h : DOMElement) : List Node :=
  h.nodes.filter (fun n => n.kind = NodeKind.element)

/-- JS `Set.add`: append unless already a member (insertion order kept,
re-adding an existing member leaves its position unchanged). -/
def setAdd (l : List Nat) (x : Nat) : List Nat :=
  if l.contains x then l else l ++ [x]

/-- JS `Set.delete`. -/
def setDelete (l : List Nat) (x : Nat) : List Nat :=
  l.filter (fun y => y ≠ x)

/-- Every `DOMNode` of the source (`Element | Document | Window`)
supports `addEventListener`, so the source's `'addEventListener' in
node` guard always passes. -/
def supportsListeners (_ : Node) : Bool := true

/-- Attach a native listener bridge to a node (`addEventListener`). -/
def attachListener (ls : List (Nat × List (String × Nat))) (nid : Nat)
    (ev : String) (lid : Nat) : List (Nat × List (String × Nat)) :=
  aset ls nid ((aget ls nid).getD [] ++ [(ev, lid)])

/-- Detach a specific native listener bridge (`removeEventListener`). -/
def detachListener (ls : List (Nat × List (String × Nat))) (nid : Nat)
    (ev : String) (lid : Nat) : List (Nat × List (String × Nat)) :=
  aset ls nid (((aget ls nid).getD []).filter (fun e => e ≠ (ev, lid)))

/-- Write back a node's event store into its data map slot, mirroring
that the source mutates the one store object held under
`EVENT_STORE_KEY`. -/
def writeES (s : State) (n : Node) (es : EventStore) : State :=
  let dm := (s.mapOf n.id).getD ⟨[], none⟩
  s.setMap n.id { dm with entries := aset dm.entries EVENT_STORE_KEY (.store es) }

/-- Source `ensureEventStore`: through `getNodeData`, reuse the store
held under the reserved key, or create one and store it there. -/
def ensureEventStore (s : State) (n : Node) : EventStore × State :=
  let q := getNodeData s n
  match asEventStore ((aget q.1.entries EVENT_STORE_KEY).getD .undef) with
  | some es => (es, q.2)
  | none => (⟨[], []⟩, writeES q.2 n ⟨[], []⟩)

/-- Source `DOMElement.on` restricted to one node of the Handle: lazily
create the data map and event store (`ensureEventStore`), create the
bucket and install the single native bridge on first registration for
the name, then add the handler to the set. -/
def onNode (s0 : State) (n : Node) (ev : String) (handler : Nat) : State :=
  match ensureEventStore s0 n with
  | (es, s) =>
  match aget es.buckets ev with
  | some bucket =>
      writeES s n { es with buckets := aset es.buckets ev (setAdd bucket handler) }
  | none =>
      if supportsListeners n then
        writeES { s with nextOid := s.nextOid + 1,
                         listeners := attachListener s.listeners n.id ev s.nextOid } n
          ⟨aset es.buckets ev (setAdd [] handler), aset es.native ev s.nextOid⟩
      else
        writeES s n { es with buckets := aset es.buckets ev (setAdd [] handler) }

/-- Source `DOMElement.on`: fan out over the Handle's nodes; returns the
Handle for chaining. -/
def DOMElement.on (h : DOMElement) (ev : String) (handler : Nat)
    (s : State) : DOMElement × State :=
  (h, h.nodes.foldl (fun s n => onNode s n ev handler) s)

/-- The bridge-uninstall step shared by both `off` branches: look up the
installed native listener and, when one exists, `removeEventListener`
it. -/
def removeBridge (s : State) (n : Node) (es : EventStore) (ev : String) : State :=
  match aget es.native ev with
  | some lid =>
      if supportsListeners n then
        { s with listeners := detachListener s.listeners n.id ev lid }
      else s
  | none => s

/-- Source `DOMElement.off` restricted to one node: without a handler,
unconditionally uninstall the bridge and drop the bucket and bridge
entries; with a handler, delete it from the set and, if the set became
empty, uninstall the bridge and drop both entries. -/
def offNode (s0 : State) (n : Node) (ev : String) (handler : Option Nat) : State :=
  match getEventStore s0 n with
  | none => s0
  | some es =>
  match handler with
  | none =>
      writeES (removeBridge s0 n es ev) n ⟨adel es.buckets ev, adel es.native ev⟩
  | some hd =>
      match aget es.buckets ev with
      | none => s0
      | some bucket =>
          if (setDelete bucket hd).isEmpty then
            writeES (removeBridge s0 n es ev) n ⟨adel es.buckets ev, adel es.native ev⟩
          else
            writeES s0 n { es with buckets := aset es.buckets ev (setDelete bucket hd) }

/-- Source `DOMElement.off`: fan out; returns the Handle. -/
def DOMElement.off (h : DOMElement) (ev : String) (handler : Option Nat)
    (s : State) : DOMElement × State :=
  (h, h.nodes.foldl (fun s n => offNode s n ev handler) s)

/-- The four call shapes of the overloaded `data` method. -/
inductive DataArg where
  | noKey
  | getKey (k : String)
  | setKey (k : String) (v : Value)
  | entriesRec (entries : List (String × Value))

/-- What a `data` call returns: a JavaScript value (possibly an object
reference or `undefined`), or the Handle itself (`this`). -/
inductive DataRet where
  | value (v : Value)
  | self

/-- Source `DOMElement.data`, mirroring its branch order: an empty
Handle returns a fresh `new Map()` for the no-key form and `undefined`
for every keyed form; otherwise the first node's map is fetched
(creating it if needed), then: no key ⇒ return the cached live-view
proxy or create and cache one; an object key ⇒ merge its entries and
return the Handle; an `undefined` value ⇒ keyed read; otherwise keyed
write returning the Handle. -/
def DOMElement.data (h : DOMElement) (arg : DataArg) (s0 : State) :
    DataRet × State :=
  match h.nodes.head? with
  | none =>
      match arg with
      | .noKey =>
          let p := s0.alloc (.jsMap [])
          (.value (.obj p.1), p.2)
      | _ => (.value .undef, s0)
  | some node =>
  let p := getNodeData s0 node
  let dm := p.1
  let s := p.2
  match arg with
  | .noKey =>
      match dm.proxy with
      | some oid => (.value (.obj oid), s)
      | none =>
          let q := s.alloc (.proxyView node.id)
          (.value (.obj q.1), q.2.setMap node.id { dm with proxy := some q.1 })
  | .entriesRec entries =>
      (.self, s.setMap node.id
        { dm with entries := entries.foldl (fun m e => aset m e.1 e.2) dm.entries })
  | .getKey k => (.value ((aget dm.entries k).getD .undef), s)
  | .setKey k v =>
      match v with
      | .undef => (.value ((aget dm.entries k).getD .undef), s)
      | _ => (.self, s.setMap node.id { dm with entries := aset dm.entries k v })

/-- Read a node's data map for the proxy traps, which captured the map
object at proxy-creation time (the source creates that map before any
proxy exists, so it is always present; the default is unreachable). -/
def dmOfNode (s : State) (nid : Nat) : ElementDataMap :=
  (s.mapOf nid).getD ⟨[], none⟩

/-- The live-view proxy's `get` trap for string-typed properties:
`get`, `set` and `has` yield freshly created bound functions over the
backing map; reading `f` when the map has no `f` auto-initialises it to
a fresh empty record; any other name is a map lookup.  (The symbol
branch — `Symbol.toStringTag` — and the enumeration traps are reads
with no effect on the store and are not needed by the claims.) -/
def proxyGet (s : State) (nid : Nat) (prop : String) : Value × State :=
  if prop = "get" ∨ prop = "set" ∨ prop = "has" then
    let p := s.alloc (.boundFn prop nid)
    (.obj p.1, p.2)
  else
    let dm := dmOfNode s nid
    if prop = "f" ∧ ¬ ahas dm.entries "f" then
      let p := s.alloc (.record [])
      (.obj p.1, p.2.setMap nid { dm with entries := aset dm.entries "f" (.obj p.1) })
    else
      ((aget dm.entries prop).getD .undef, s)

/-- The proxy's `set` trap for string-typed properties: write through to
the backing map (symbol-typed properties are rejected by the source and
not modelled). -/
def proxySet (s : State) (nid : Nat) (prop : String) (v : Value) : State :=
  let dm := dmOfNode s nid
  s.setMap nid { dm with entries := aset dm.entries prop v }

/-- The proxy's `deleteProperty` trap for string-typed properties. -/
def proxyDelete (s : State) (nid : Nat) (prop : String) : Bool × State :=
  let dm := dmOfNode s nid
  (ahas dm.entries prop, s.setMap nid { dm with entries := adel dm.entries prop })

/-- Source `toArgsArray`: a falsy payload (absent, `null`, `false`, `0`,
the empty string) gives no arguments; an array is spread in order; any
other value is a single argument.  An absent payload is `Value.undef`. -/
def toArgsArray (data : Value) : List Value :=
  if !truthy data then []
  else
    match data with
    | .arr l => l
    | _ => [data]

/-- Source `toDetailValue`. -/
def toDetailValue (args : List Value) : Value :=
  match args with
  | [] => .undef
  | [a] => a
  | _ => .arr args

/-- The synthetic event built by `createSyntheticEvent` for a
name-based trigger; its mutable prevented/stopped flags live in the
dispatch result below. -/
structure SyntheticEvent where
  type : String
  target : Option Nat
  currentTarget : Option Nat
  detail : Value

/-- Source `createSyntheticEvent` (flags start false). -/
def createSyntheticEvent (ty : String) (target : Option Nat) (detail : Value) :
    SyntheticEvent :=
  ⟨ty, target, target, detail⟩

/-- The source checks `result === false` on each handler's return. -/
def isFalseLiteral : Value → Bool
  | .bool b => !b
  | _ => false

/-- One per-node delivery: the single synthetic event constructed for
the node, the `(handler, extraArgs)` calls in invocation order, and the
synthetic event's final prevented/stopped flags. -/
structure Dispatch where
  node : Nat
  event : SyntheticEvent
  calls : List (Nat × List Value)
  defaultPrevented : Bool
  propagationStopped : Bool

/-- The `bucket.forEach` loop of `trigger`: invoke every handler with
the synthetic event and the argument list; a `false` return calls the
synthetic event's `preventDefault` and `stopPropagation` but the loop
never breaks.  Handlers are abstract: `hret` gives each handler's return
value (a handler that itself mutates the store is outside the modelled
fragment, which the claims do not exercise). -/
def runHandlers (n : Node) (ev : SyntheticEvent) (args : List Value)
    (hret : Nat → Value) (bucket : List Nat) : Dispatch :=
  bucket.foldl
    (fun d hd =>
      let flag := isFalseLiteral (hret hd)
      { d with calls := d.calls ++ [(hd, args)],
               defaultPrevented := d.defaultPrevented || flag,
               propagationStopped := d.propagationStopped || flag })
    ⟨n.id, ev, [], false, false⟩

/-- Source `DOMElement.trigger` (name-based form) restricted to one
node: read the event store without creating anything, skip the node
when there is no bucket or an empty bucket, otherwise construct one
synthetic event and run the handlers.  The string path only reads the
store (`getEventStore` wraps `dataStore.get`), which is why no state is
threaded back.  The overload taking an event-like object instead of a
name reuses that object's type, target and prevent/stop behaviour and
is a distinct path in the source, not modelled here. -/
def triggerNode (s : State) (eventName : String) (detail : Value)
    (args : List Value) (hret : Nat → Value) (n : Node) : Option Dispatch :=
  match getEventStore s n with
  | none => none
  | some es =>
  match aget es.buckets eventName with
  | none => none
  | some bucket =>
  if bucket.isEmpty then none
  else some (runHandlers n (createSyntheticEvent eventName (some n.id) detail) args hret bucket)

/-- Source `DOMElement.trigger` (name-based form): normalise the
payload once, derive the detail once, then deliver per node in Handle
order; returns the Handle and the trace of per-node deliveries (skipped
nodes contribute nothing). -/
def DOMElement.trigger (h : DOMElement) (eventName : String) (payload : Value)
    (hret : Nat → Value) (s : State) : DOMElement × List Dispatch :=
  let args := toArgsArray payload
  let detail := toDetailValue args
  (h, h.nodes.filterMap (triggerNode s eventName detail args hret))

/-- A registration-subsystem operation: an `on` or `off` call on some
Handle. -/
inductive EvOp where
  | onE (ns : List Node) (ev : String) (handler : Nat)
  | offE (ns : List Node) (ev : String) (handler : Option Nat)

/-- Apply one `on`/`off` call. -/
def applyEvOp (s : State) : EvOp → State
  | .onE ns ev hd => (DOMElement.on ⟨ns⟩ ev hd s).2
  | .offE ns ev hd => (DOMElement.off ⟨ns⟩ ev hd s).2

/-- Run a sequence of `on`/`off` calls from the pristine state. -/
def runEvOps (ops : List EvOp) : State :=
  ops.foldl applyEvOp initState

/-- The node's event store looked up by id (what `getEventStore`
yields). -/
def eventStoreOfId (s : State) (nid : Nat) : Option EventStore :=
  match s.mapOf nid with
  | none => none
  | some dm => asEventStore ((aget dm.entries EVENT_STORE_KEY).getD .undef)

/-- The handler set registered on a node for an event name (empty when
the node has no store or no bucket). -/
def handlersOf (s : State) (nid : Nat) (ev : String) : List Nat :=
  match eventStoreOfId s nid with
  | none => []
  | some es => (aget es.buckets ev).getD []

/-- Whether a bucket entry exists at all for the name. -/
def bucketPresent (s : State) (nid : Nat) (ev : String) : Bool :=
  match eventStoreOfId s nid with
  | none => false
  | some es => (aget es.buckets ev).isSome

/-- How many native listener bridges the node's `EventStore` holds for
the name (its `native` field is a JS `Map`, so the count is the number
of entries at the key). -/
def bridgeCount (s : State) (nid : Nat) (ev : String) : Nat :=
  match eventStoreOfId s nid with
  | none => 0
  | some es => (es.native.filter (fun e => e.1 == ev)).length

/-- Refined node-list model for claim C9: a Handle's `nodes` field is a
JavaScript array object, so array identity matters.  `ArrState` is the
store of live array objects. -/
structure ArrState where
  arrays : List (Nat × List Node)
  nextAid : Nat
deriving DecidableEq, Repr

/-- Allocate a fresh array object. -/
def arrAlloc (a : ArrState) (elems : List Node) : Nat × ArrState :=
  (a.nextAid, ⟨aset a.arrays a.nextAid elems, a.nextAid + 1⟩)

/-- Current contents of an array object. -/
def arrRead (a : ArrState) (aid : Nat) : List Node :=
  (aget a.arrays aid).getD []

/-- Replace an array object's contents in place. -/
def arrWrite (a : ArrState) (aid : Nat) (elems : List Node) : ArrState :=
  { a with arrays := aset a.arrays aid elems }

/-- A caller mutating its own array (`arr.push(n)`). -/
def arrPush (a : ArrState) (aid : Nat) (n : Node) : ArrState :=
  arrWrite a aid (arrRead a aid ++ [n])

/-- A Handle in the refined model: it holds the array object produced by
`normalizeNodes`. -/
structure DOMElementA where
  nodesAid : Nat
deriving DecidableEq, Repr

/-- Source `isHTMLFragment`. -/
def isHTMLFragment (value : String) : Bool :=
  value.trim.startsWith "<"

/-- Selector input union, one constructor per `normalizeNodes` branch
(`falsyInput` covers `null`/`undefined` and any other input matching no
branch, both of which yield a fresh empty list). -/
inductive SelectorInput where
  | falsyInput
  | handle (h : DOMElementA)
  | windowSel (n : Node)
  | documentSel (n : Node)
  | elementSel (n : Node)
  | nodeListSel (ns : List Node)
  | collectionSel (ns : List Node)
  | arraySel (aid : Nat)
  | textSel (s : String)

/-- Source `normalizeNodes` in the refined model.  Every branch builds a
fresh array (`[...]`, `Array.from`, a literal, or the parse/query
result) except the `Array.isArray` branch, which returns the caller's
own array object unchanged.  `query` stands for
`document.querySelectorAll` and `parseHTML` for `createNodesFromHTML`'s
detached-template parse, both applied to the source's argument. -/
def normalizeNodesA (query parseHTML : String → List Node) (a : ArrState) :
    SelectorInput → Nat × ArrState
  | .falsyInput => arrAlloc a []
  | .handle h => arrAlloc a (arrRead a h.nodesAid)
  | .windowSel n => arrAlloc a [n]
  | .documentSel n => arrAlloc a [n]
  | .elementSel n => arrAlloc a [n]
  | .nodeListSel ns => arrAlloc a ns
  | .collectionSel ns => arrAlloc a ns
  | .arraySel aid => (aid, a)
  | .textSel s =>
      if isHTMLFragment s then arrAlloc a (parseHTML s.trim)
      else arrAlloc a (query s)

/-- The constructor in the refined model (the declarative `attributes`
parameter only fans out style/class/attribute writes and does not touch
the node list, so it is omitted here). -/
def newDOMElementA (query parseHTML : String → List Node)
    (sel : SelectorInput) (a : ArrState) : DOMElementA × ArrState :=
  let p := normalizeNodesA query parseHTML a sel
  (⟨p.1⟩, p.2)

/-- The node list a refined Handle currently sees. -/
def DOMElementA.nodesIn (h : DOMElementA) (a : ArrState) : List Node :=
  arrRead a h.nodesAid

/-- Source `remove()` in the refined model: `this.nodes.length = 0`
empties the Handle's own array object in place (the DOM detachment it
also performs is modelled with the main model's `remove`). -/
def DOMElementA.remove (h : DOMElementA) (a : ArrState) : DOMElementA × ArrState :=
  (h, arrWrite a h.nodesAid [])

/-- A `string | number` css/attr value. -/
inductive StrNum where
  | s (v : String)
  | n (v : Int)
deriving DecidableEq, Repr

/-- JS `String(val)` on a `string | number` (numbers in the modelled
fragment are integers). -/
def strNumToString : StrNum → String
  | .s v => v
  | .n v => toString v

/-- Source `key.replace` of every capital letter by a dash plus the
letter, followed by `toLowerCase` (kebab-casing the property name). -/
def camelToKebab (k : String) : String :=
  String.mk (k.data.foldr
    (fun c acc => if c.isUpper then '-' :: c.toLower :: acc else c :: acc) [])

/-- Substring containment, for `key.match` against a plain alternation
pattern. -/
def containsSub (s pat : String) : Bool :=
  (s.splitOn pat).length != 1

/-- The source's unitless-property test `key.match` over `opacity`,
`zIndex`, `fontWeight`. -/
def matchesUnitless (k : String) : Bool :=
  containsSub k "opacity" || containsSub k "zIndex" || containsSub k "fontWeight"

/-- Rendered css value: numbers get a `px` suffix except for the
unitless properties; everything else through `String(val)`. -/
def renderCssValue (key : String) (v : StrNum) : String :=
  match v with
  | .n i => if !matchesUnitless key then toString i ++ "px" else toString i
  | .s str => str

/-- Mutable DOM state the modelled methods touch: inline style
properties, attributes, class lists, child lists (in document order),
markup text appended through string `append` (the model keeps the text;
parsing it into child nodes is outside the claims), and the allocator
for nodes created by `cloneNode`. -/
structure DomState where
  attrs : List (Nat × List (String × String))
  styleProps : List (Nat × List (String × String))
  classes : List (Nat × List String)
  children : List (Nat × List Nat)
  innerHTMLTail : List (Nat × String)
  nextNodeId : Nat
deriving DecidableEq, Repr

/-- `el.style.setProperty`. -/
def setStyleProp (d : DomState) (el : Nat) (k v : String) : DomState :=
  { d with styleProps := aset d.styleProps el (aset ((aget d.styleProps el).getD []) k v) }

/-- `el.setAttribute`. -/
def setAttrOp (d : DomState) (el : Nat) (k v : String) : DomState :=
  { d with attrs := aset d.attrs el (aset ((aget d.attrs el).getD []) k v) }

/-- `el.getAttribute` (`null` for a missing attribute, which the source
maps to `undefined`). -/
def getAttrOp (d : DomState) (el : Nat) (k : String) : Option String :=
  aget ((aget d.attrs el).getD []) k

/-- `el.classList.add` for one token. -/
def classAdd (d : DomState) (el : Nat) (token : String) : DomState :=
  let cur := (aget d.classes el).getD []
  { d with classes := aset d.classes el (if cur.contains token then cur else cur ++ [token]) }

/-- `el.classList.remove` for one token. -/
def classRemove (d : DomState) (el : Nat) (token : String) : DomState :=
  let cur := (aget d.classes el).getD []
  { d with classes := aset d.classes el (cur.filter (fun t => t ≠ token)) }

/-- Detach a node from whatever parent holds it. -/
def detachFromParents (cs : List (Nat × List Nat)) (child : Nat) :
    List (Nat × List Nat) :=
  cs.map (fun e => (e.1, e.2.filter (fun c => c ≠ child)))

/-- `el.appendChild` (moves the child). -/
def appendChildOp (d : DomState) (parent child : Nat) : DomState :=
  let cs := detachFromParents d.children child
  { d with children := aset cs parent ((aget cs parent).getD [] ++ [child]) }

/-- `el.insertBefore(child, el.firstChild)` (moves the child to the
front). -/
def insertFirstOp (d : DomState) (parent child : Nat) : DomState :=
  let cs := detachFromParents d.children child
  { d with children := aset cs parent (child :: (aget cs parent).getD []) }

/-- `node.cloneNode(true)`: a fresh node carrying copies of the
original's attributes, style and classes (the claims never observe a
clone's subtree, which is not tracked). -/
def cloneNodeOp (d : DomState) (src : Nat) : Nat × DomState :=
  let nid := d.nextNodeId
  (nid, { d with nextNodeId := nid + 1,
                 attrs := aset d.attrs nid ((aget d.attrs src).getD []),
                 styleProps := aset d.styleProps nid ((aget d.styleProps src).getD []),
                 classes := aset d.classes nid ((aget d.classes src).getD []) })

/-- `el.innerHTML += child` for the string form of `append`. -/
def htmlAppend (d : DomState) (el : Nat) (html : String) : DomState :=
  { d with innerHTMLTail := aset d.innerHTMLTail el ((aget d.innerHTMLTail el).getD "" ++ html) }

/-- Source `css` in get form (`css(prop)` with no value): the computed
style of the first element, the empty string on an empty Handle.
`computed` is the `window.getComputedStyle` oracle. -/
def DOMElement.cssGet (h : DOMElement) (computed : Nat → String → String)
    (prop : String) : String :=
  match h.elementsOf.head? with
  | some el => computed el.id prop
  | none => ""

/-- Source `css` in set form: the single-property call contributes the
one-entry record; every element receives every property, kebab-cased,
with numeric values suffixed `px` unless the key matches the unitless
pattern.  Returns the Handle. -/
def DOMElement.cssSet (h : DOMElement) (props : List (String × StrNum))
    (d : DomState) : DOMElement × DomState :=
  (h, h.elementsOf.foldl
    (fun d el => props.foldl
      (fun d kv => setStyleProp d el.id (camelToKebab kv.1) (renderCssValue kv.1 kv.2)) d)
    d)

/-- Source `attr` in get form: first element's attribute, `undefined`
(`none`) when the Handle is empty or the attribute is missing. -/
def DOMElement.attrGet (h : DOMElement) (d : DomState) (name : String) :
    Option String :=
  match h.elementsOf.head? with
  | some el => getAttrOp d el.id name
  | none => none

/-- Source `attr` in set form (single pair or record): every element
receives every attribute through `String(val)`.  Returns the Handle. -/
def DOMElement.attrSet (h : DOMElement) (attrsArg : List (String × StrNum))
    (d : DomState) : DOMElement × DomState :=
  (h, h.elementsOf.foldl
    (fun d el => attrsArg.foldl
      (fun d kv => setAttrOp d el.id kv.1 (strNumToString kv.2)) d)
    d)

/-- Source token split `className.split` on whitespace, empties
filtered out. -/
def splitTokens (className : String) : List String :=
  (className.split (fun c => c.isWhitespace)).filter (fun t => t ≠ "")

/-- Source `addClass`. -/
def DOMElement.addClass (h : DOMElement) (className : String) (d : DomState) :
    DOMElement × DomState :=
  let tokens := splitTokens className
  if tokens.isEmpty then (h, d)
  else (h, h.elementsOf.foldl
    (fun d el => tokens.foldl (fun d t => classAdd d el.id t) d) d)

/-- Source `removeClass`. -/
def DOMElement.removeClass (h : DOMElement) (className : String) (d : DomState) :
    DOMElement × DomState :=
  let tokens := splitTokens className
  if tokens.isEmpty then (h, d)
  else (h, h.elementsOf.foldl
    (fun d el => tokens.foldl (fun d t => classRemove d el.id t) d) d)

/-- The `Element | DOMElement | string` child argument of `append`. -/
inductive ChildArg where
  | text (html : String)
  | handle (hc : DOMElement)
  | node (n : Node)

/-- Source `append`: markup text concatenates into content, another
Handle's elements are deep-cloned before insertion, a literal node is
moved.  Returns the Handle. -/
def DOMElement.append (h : DOMElement) (child : ChildArg) (d : DomState) :
    DOMElement × DomState :=
  (h, h.elementsOf.foldl
    (fun d el =>
      match child with
      | .text html => htmlAppend d el.id html
      | .handle hc =>
          hc.elementsOf.foldl
            (fun d c =>
              let p := cloneNodeOp d c.id
              appendChildOp p.2 el.id p.1) d
      | .node c => appendChildOp d el.id c.id)
    d)

/-- Source `prepend` (no string form): a Handle's elements are cloned
and inserted first, a literal node is moved to the front.  Returns the
Handle. -/
def DOMElement.prepend (h : DOMElement) (child : ChildArg) (d : DomState) :
    DOMElement × DomState :=
  (h, h.elementsOf.foldl
    (fun d el =>
      match child with
      | .text _ => d
      | .handle hc =>
          hc.elementsOf.foldl
            (fun d c =>
              let p := cloneNodeOp d c.id
              insertFirstOp p.2 el.id p.1) d
      | .node c => insertFirstOp d el.id c.id)
    d)

/-- Source `remove`: detach every element from its parent, then empty
the Handle's own node list (`this.nodes.length = 0`). -/
def DOMElement.remove (h : DOMElement) (d : DomState) : DOMElement × DomState :=
  (⟨[]⟩, h.elementsOf.foldl
    (fun d el => { d with children := detachFromParents d.children el.id }) d)

/-- Source `width`: the first element's `offsetWidth` (an oracle), `0`
on an empty Handle. -/
def DOMElement.width (h : DOMElement) (offsetWidth : Nat → Int) : Int :=
  match h.elementsOf.head? with
  | some el => offsetWidth el.id
  | none => 0

/-- Source `height`. -/
def DOMElement.height (h : DOMElement) (offsetHeight : Nat → Int) : Int :=
  match h.elementsOf.head? with
  | some el => offsetHeight el.id
  | none => 0

/-- The top/left pair `offset` returns. -/
structure OffsetPos where
  top : Int
  left : Int
deriving DecidableEq, Repr

/-- Source `offset`: the first element's bounding rect plus the scroll
position (all oracles), the zero pair on an empty Handle. -/
def DOMElement.offset (h : DOMElement) (rectTop rectLeft : Nat → Int)
    (scrollX scrollY : Int) : OffsetPos :=
  match h.elementsOf.head? with
  | none => ⟨0, 0⟩
  | some el => ⟨rectTop el.id + scrollY, rectLeft el.id + scrollX⟩

/-- The value stored under a string key in a node's backing map (`none`
both when the node has no map and when the key is absent). -/
def storedData (s : State) (nid : Nat) (k : String) : Option Value :=
  (s.mapOf nid).bind (fun dm => aget dm.entries k)

/-- The cached live-view object id of a node, if one was created. -/
def proxyOidOf (s : State) (nid : Nat) : Option Nat :=
  (s.mapOf nid).bind (fun dm => dm.proxy)

/-- Allocation soundness: every heap id and every cached live-view id
is below the allocation counter.  Holds in every reachable state. -/
def oidsBounded (s : State) : Prop :=
  (∀ e ∈ s.heap, e.1 < s.nextOid) ∧
  (∀ e ∈ s.dataStore, ∀ oid, e.2.proxy = some oid → oid < s.nextOid)

/-- The last binding of a key in an entry record (`Object.entries`
iteration applies bindings left to right, so the last one wins). -/
def lastEntry : List (String × Value) → String → Option Value
  | [], _ => none
  | e :: tl, k =>
      match lastEntry tl k with
      | some v => some v
      | none => if e.1 = k then some e.2 else none

/-- How many times a handler is invoked across a delivery trace. -/
def callsTo (ds : List Dispatch) (hd : Nat) : Nat :=
  (ds.map (fun d => (d.calls.filter (fun c => c.1 == hd)).length)).sum

/-- The registration-subsystem invariant on one event store: buckets are
never empty, a native bridge entry exists exactly when a bucket does,
and the `native` map holds no duplicate names. -/
def GoodES (es : EventStore) : Prop :=
  (∀ ev l, aget es.buckets ev = some l → l ≠ []) ∧
  (∀ ev, (aget es.buckets ev).isSome = (aget es.native ev).isSome) ∧
  (es.native.map Prod.fst).Nodup

/-- The invariant over all nodes of a state. -/
def InvS (s : State) : Prop :=
  ∀ nid es, eventStoreOfId s nid = some es → GoodES es

/-- What `onNode` does to the affected node's event store, as a pure
store transform (`lid` is the id of the freshly created bridge). -/
def onES (eso : Option EventStore) (ev : String) (hd lid : Nat) : EventStore :=
  let es := eso.getD ⟨[], []⟩
  match aget es.buckets ev with
  | some bucket => { es with buckets := aset es.buckets ev (setAdd bucket hd) }
  | none => ⟨aset es.buckets ev (setAdd [] hd), aset es.native ev lid⟩

/-- What `offNode` does to the affected node's event store. -/
def offES (es : EventStore) (ev : String) (hdo : Option Nat) : EventStore :=
  match hdo with
  | none => ⟨adel es.buckets ev, adel es.native ev⟩
  | some hd =>
      match aget es.buckets ev with
      | none => es
      | some bucket =>
          let b := setDelete bucket hd
          if b.isEmpty then ⟨adel es.buckets ev, adel es.native ev⟩
          else { es with buckets := aset es.buckets ev b }

theorem aget_aset_self {κ ν : Type} [DecidableEq κ] (m : List (κ × ν)) (k : κ) (v : ν) :
    aget (aset m k v) k = some v := by
  induction m with
  | nil => simp [aset, aget]
  | cons e tl ih =>
      by_cases h : e.1 = k
      · simp [aset, aget, h]
      · simp [aset, aget, h, ih]

theorem aget_aset_ne {κ ν : Type} [DecidableEq κ] (m : List (κ × ν)) (k k' : κ) (v : ν)
    (h : k' ≠ k) : aget (aset m k v) k' = aget m k' := by
  induction m with
  | nil => simp [aset, aget, Ne.symm h]
  | cons e tl ih =>
      by_cases he : e.1 = k
      · subst he
        simp [aset, aget, Ne.symm h]
      · by_cases he' : e.1 = k'
        · simp [aset, aget, he, he', h]
        · simp [aset, aget, he, he', ih]

theorem aset_of_aget_eq {κ ν : Type} [DecidableEq κ] (m : List (κ × ν)) (k : κ) (v : ν)
    (h : aget m k = some v) : aset m k v = m := by
  induction m with
  | nil => simp [aget] at h
  | cons e tl ih =>
      by_cases he : e.1 = k
      · simp [aget, he] at h
        obtain ⟨e1, e2⟩ := e
        simp only at he h
        simp [aset, he, h]
      · simp [aget, he] at h
        simp [aset, he, ih h]

theorem aget_adel_self {κ ν : Type} [DecidableEq κ] (m : List (κ × ν)) (k : κ) :
    aget (adel m k) k = none := by
  induction m with
  | nil => simp [adel, aget]
  | cons e tl ih =>
      by_cases he : e.1 = k
      · simp [adel, he, ih]
      · simp [adel, aget, he, ih]

theorem aget_adel_ne {κ ν : Type} [DecidableEq κ] (m : List (κ × ν)) (k k' : κ)
    (h : k' ≠ k) : aget (adel m k) k' = aget m k' := by
  induction m with
  | nil => simp [adel]
  | cons e tl ih =>
      by_cases he : e.1 = k
      · subst he
        simp [adel, aget, Ne.symm h, ih]
      · simp [adel, aget, he, ih]

theorem adel_sublist {κ ν : Type} [DecidableEq κ] (m : List (κ × ν)) (k : κ) :
    (adel m k).Sublist m := by
  induction m with
  | nil => simp [adel]
  | cons e tl ih =>
      by_cases he : e.1 = k
      · simpa [adel, he] using ih.cons e
      · simpa [adel, he] using ih.cons₂ e

theorem aget_eq_none_iff {κ ν : Type} [DecidableEq κ] (m : List (κ × ν)) (k : κ) :
    aget m k = none ↔ k ∉ m.map Prod.fst := by
  induction m with
  | nil => simp [aget]
  | cons e tl ih =>
      by_cases he : e.1 = k
      · simp [aget, he]
      · simp [aget, he, ih, Ne.symm he]

theorem aset_map_fst_of_some {κ ν : Type} [DecidableEq κ] (m : List (κ × ν)) (k : κ)
    (v v0 : ν) (h : aget m k = some v0) :
    (aset m k v).map Prod.fst = m.map Prod.fst := by
  induction m with
  | nil => simp [aget] at h
  | cons e tl ih =>
      by_cases he : e.1 = k
      · simp [aset, he]
      · simp [aget, he] at h
        simp [aset, he, ih h]

theorem aset_map_fst_of_none {κ ν : Type} [DecidableEq κ] (m : List (κ × ν)) (k : κ)
    (v : ν) (h : aget m k = none) :
    (aset m k v).map Prod.fst = m.map Prod.fst ++ [k] := by
  induction m with
  | nil => simp [aset]
  | cons e tl ih =>
      by_cases he : e.1 = k
      · simp [aget, he] at h
      · simp [aget, he] at h
        simp [aset, he, ih h]

theorem setAdd_ne_nil (l : List Nat) (x : Nat) : setAdd l x ≠ [] := by
  unfold setAdd
  split
  · rename_i hmem
    intro hnil
    subst hnil
    simp at hmem
  · simp

theorem setAdd_of_mem {l : List Nat} {x : Nat} (h : x ∈ l) : setAdd l x = l := by
  simp [setAdd, h]

theorem mem_setAdd (l : List Nat) (x : Nat) : x ∈ setAdd l x := by
  unfold setAdd
  split
  · rename_i hmem
    simpa using hmem
  · simp

theorem setAdd_nodup {l : List Nat} (h : l.Nodup) (x : Nat) : (setAdd l x).Nodup := by
  unfold setAdd
  split
  · exact h
  · rename_i hmem
    simp at hmem
    simp [List.nodup_append, h, hmem]

theorem filter_key_eq_nil {κ ν : Type} [DecidableEq κ] [BEq κ] [LawfulBEq κ]
    (m : List (κ × ν)) (k : κ) (h : aget m k = none) :
    m.filter (fun e => e.1 == k) = [] := by
  induction m with
  | nil => simp
  | cons e tl ih =>
      by_cases he : e.1 = k
      · simp [aget, he] at h
      · simp [aget, he] at h
        have hbf : (e.1 == k) = false := beq_eq_false_iff_ne.mpr he
        simp [List.filter, hbf, ih h]

theorem filter_key_length_one {κ ν : Type} [DecidableEq κ] [BEq κ] [LawfulBEq κ]
    (m : List (κ × ν)) (k : κ) (v : ν) (hn : (m.map Prod.fst).Nodup)
    (h : aget m k = some v) :
    (m.filter (fun e => e.1 == k)).length = 1 := by
  induction m with
  | nil => simp [aget] at h
  | cons e tl ih =>
      simp only [List.map_cons, List.nodup_cons] at hn
      by_cases he : e.1 = k
      · have htl : aget tl k = none := by
          rw [aget_eq_none_iff]
          rw [he] at hn
          exact hn.1
        simp [List.filter, beq_iff_eq, he, filter_key_eq_nil tl k htl]
      · simp [aget, he] at h
        have hbf : (e.1 == k) = false := beq_eq_false_iff_ne.mpr he
        simp [List.filter, hbf, ih hn.2 h]

theorem runHandlers_foldl (args : List Value)
    (hret : Nat → Value) (bucket : List Nat) (d0 : Dispatch) :
    bucket.foldl
      (fun d hd =>
        let flag := isFalseLiteral (hret hd)
        { d with calls := d.calls ++ [(hd, args)],
                 defaultPrevented := d.defaultPrevented || flag,
                 propagationStopped := d.propagationStopped || flag })
      d0 =
    { d0 with
      calls := d0.calls ++ bucket.map (fun hd => (hd, args)),
      defaultPrevented := d0.defaultPrevented || bucket.any (fun hd => isFalseLiteral (hret hd)),
      propagationStopped := d0.propagationStopped || bucket.any (fun hd => isFalseLiteral (hret hd)) } := by
  induction bucket generalizing d0 with
  | nil => simp
  | cons hd tl ih =>
      simp only [List.foldl_cons, ih]
      simp [Bool.or_assoc]

theorem runHandlers_spec (n : Node) (ev : SyntheticEvent) (args : List Value)
    (hret : Nat → Value) (bucket : List Nat) :
    runHandlers n ev args hret bucket =
      ⟨n.id, ev, bucket.map (fun hd => (hd, args)),
        bucket.any (fun hd => isFalseLiteral (hret hd)),
        bucket.any (fun hd => isFalseLiteral (hret hd))⟩ := by
  unfold runHandlers
  rw [runHandlers_foldl]
  simp

theorem mapOf_setMap_self (s : State) (nid : Nat) (dm : ElementDataMap) :
    (s.setMap nid dm).mapOf nid = some dm := by
  unfold State.setMap State.mapOf
  exact aget_aset_self _ _ _

theorem mapOf_setMap_ne (s : State) (nid nid' : Nat) (dm : ElementDataMap)
    (hne : nid' ≠ nid) : (s.setMap nid dm).mapOf nid' = s.mapOf nid' := by
  unfold State.setMap State.mapOf
  exact aget_aset_ne _ _ _ _ hne

theorem eventStoreOfId_setMap_ne (s : State) (nid nid' : Nat) (dm : ElementDataMap)
    (hne : nid' ≠ nid) :
    eventStoreOfId (s.setMap nid dm) nid' = eventStoreOfId s nid' := by
  unfold eventStoreOfId
  rw [mapOf_setMap_ne s nid nid' dm hne]

theorem eventStoreOfId_writeES_self (s : State) (n : Node) (es : EventStore) :
    eventStoreOfId (writeES s n es) n.id = some es := by
  simp [writeES, eventStoreOfId, mapOf_setMap_self, aget_aset_self, asEventStore]

theorem eventStoreOfId_writeES_ne (s : State) (n : Node) (es : EventStore)
    (nid : Nat) (hne : nid ≠ n.id) :
    eventStoreOfId (writeES s n es) nid = eventStoreOfId s nid := by
  simp only [writeES]
  exact eventStoreOfId_setMap_ne _ _ _ _ hne

theorem getEventStore_eq (s : State) (n : Node) :
    getEventStore s n = eventStoreOfId s n.id := rfl

theorem ensureEventStore_of_nomap (s : State) (n : Node) (hm : s.mapOf n.id = none) :
    ensureEventStore s n
      = (⟨[], []⟩, writeES (s.setMap n.id ⟨[], none⟩) n ⟨[], []⟩) := by
  unfold ensureEventStore getNodeData
  rw [hm]
  rfl

theorem ensureEventStore_of_store (s : State) (n : Node) (dm : ElementDataMap)
    (es : EventStore) (hm : s.mapOf n.id = some dm)
    (hslot : asEventStore ((aget dm.entries EVENT_STORE_KEY).getD .undef) = some es) :
    ensureEventStore s n = (es, s) := by
  unfold ensureEventStore getNodeData
  rw [hm]
  simp [hslot]

theorem ensureEventStore_of_noslot (s : State) (n : Node) (dm : ElementDataMap)
    (hm : s.mapOf n.id = some dm)
    (hslot : asEventStore ((aget dm.entries EVENT_STORE_KEY).getD .undef) = none) :
    ensureEventStore s n = (⟨[], []⟩, writeES s n ⟨[], []⟩) := by
  unfold ensureEventStore getNodeData
  rw [hm]
  simp [hslot]

theorem eventStoreOfId_of_nomap (s : State) (nid : Nat) (hm : s.mapOf nid = none) :
    eventStoreOfId s nid = none := by
  unfold eventStoreOfId
  rw [hm]

theorem eventStoreOfId_of_map (s : State) (nid : Nat) (dm : ElementDataMap)
    (hm : s.mapOf nid = some dm) :
    eventStoreOfId s nid = asEventStore ((aget dm.entries EVENT_STORE_KEY).getD .undef) := by
  unfold eventStoreOfId
  rw [hm]

theorem ensureEventStore_fst (s : State) (n : Node) :
    (ensureEventStore s n).1 = (eventStoreOfId s n.id).getD ⟨[], []⟩ := by
  cases hm : s.mapOf n.id with
  | none =>
      rw [ensureEventStore_of_nomap s n hm, eventStoreOfId_of_nomap s n.id hm]
      rfl
  | some dm =>
      cases hslot : asEventStore ((aget dm.entries EVENT_STORE_KEY).getD .undef) with
      | none =>
          rw [ensureEventStore_of_noslot s n dm hm hslot,
              eventStoreOfId_of_map s n.id dm hm, hslot]
          rfl
      | some es =>
          rw [ensureEventStore_of_store s n dm es hm hslot,
              eventStoreOfId_of_map s n.id dm hm, hslot]
          rfl

theorem eventStoreOfId_ensure_self (s : State) (n : Node) :
    eventStoreOfId (ensureEventStore s n).2 n.id
      = some ((eventStoreOfId s n.id).getD ⟨[], []⟩) := by
  cases hm : s.mapOf n.id with
  | none =>
      rw [ensureEventStore_of_nomap s n hm, eventStoreOfId_of_nomap s n.id hm]
      exact eventStoreOfId_writeES_self _ _ _
  | some dm =>
      cases hslot : asEventStore ((aget dm.entries EVENT_STORE_KEY).getD .undef) with
      | none =>
          rw [ensureEventStore_of_noslot s n dm hm hslot,
              eventStoreOfId_of_map s n.id dm hm, hslot]
          exact eventStoreOfId_writeES_self _ _ _
      | some es =>
          rw [ensureEventStore_of_store s n dm es hm hslot,
              eventStoreOfId_of_map s n.id dm hm, hslot]
          rfl

theorem eventStoreOfId_ensure_ne (s : State) (n : Node) (nid : Nat)
    (hne : nid ≠ n.id) :
    eventStoreOfId (ensureEventStore s n).2 nid = eventStoreOfId s nid := by
  cases hm : s.mapOf n.id with
  | none =>
      rw [ensureEventStore_of_nomap s n hm]
      rw [show (((⟨[], []⟩ : EventStore),
            writeES (s.setMap n.id ⟨[], none⟩) n ⟨[], []⟩)).2
          = writeES (s.setMap n.id ⟨[], none⟩) n ⟨[], []⟩ from rfl]
      rw [eventStoreOfId_writeES_ne _ _ _ _ hne, eventStoreOfId_setMap_ne _ _ _ _ hne]
  | some dm =>
      cases hslot : asEventStore ((aget dm.entries EVENT_STORE_KEY).getD .undef) with
      | none =>
          rw [ensureEventStore_of_noslot s n dm hm hslot]
          exact eventStoreOfId_writeES_ne _ _ _ _ hne
      | some es =>
          rw [ensureEventStore_of_store s n dm es hm hslot]

theorem eventStoreOfId_listeners_update (s : State) (lst : List (Nat × List (String × Nat)))
    (no : Nat) (nid : Nat) :
    eventStoreOfId { s with nextOid := no, listeners := lst } nid = eventStoreOfId s nid := rfl

theorem eventStoreOfId_onNode_self (s : State) (n : Node) (ev : String) (hd : Nat) :
    ∃ lid, eventStoreOfId (onNode s n ev hd) n.id
      = some (onES (eventStoreOfId s n.id) ev hd lid) := by
  have hfst := ensureEventStore_fst s n
  unfold onNode
  rcases hp : ensureEventStore s n with ⟨es, s1⟩
  rw [hp] at hfst
  simp only at hfst
  cases hb : aget es.buckets ev with
  | some bucket =>
      refine ⟨0, ?_⟩
      simp only [hb]
      rw [eventStoreOfId_writeES_self]
      simp only [onES, ← hfst, hb]
  | none =>
      refine ⟨s1.nextOid, ?_⟩
      simp only [hb, supportsListeners, if_true]
      rw [eventStoreOfId_writeES_self]
      simp only [onES, ← hfst, hb]

theorem eventStoreOfId_onNode_ne (s : State) (n : Node) (ev : String) (hd : Nat)
    (nid : Nat) (hne : nid ≠ n.id) :
    eventStoreOfId (onNode s n ev hd) nid = eventStoreOfId s nid := by
  have hens := eventStoreOfId_ensure_ne s n nid hne
  unfold onNode
  rcases hp : ensureEventStore s n with ⟨es, s1⟩
  rw [hp] at hens
  simp only at hens
  cases hb : aget es.buckets ev with
  | some bucket =>
      simp only [hb]
      rw [eventStoreOfId_writeES_ne _ _ _ _ hne, hens]
  | none =>
      simp only [hb, supportsListeners, if_true]
      rw [eventStoreOfId_writeES_ne _ _ _ _ hne]
      rw [show eventStoreOfId
            { dataStore := s1.dataStore, heap := s1.heap,
              listeners := attachListener s1.listeners n.id ev s1.nextOid,
              nextOid := s1.nextOid + 1 } nid = eventStoreOfId s1 nid from rfl]
      exact hens

theorem eventStoreOfId_offNode_self (s : State) (n : Node) (ev : String)
    (hdo : Option Nat) :
    eventStoreOfId (offNode s n ev hdo) n.id
      = (eventStoreOfId s n.id).map (fun es => offES es ev hdo) := by
  unfold offNode
  rw [getEventStore_eq]
  cases hes : eventStoreOfId s n.id with
  | none => exact hes
  | some es =>
      simp only [Option.map_some]
      cases hdo with
      | none =>
          rw [eventStoreOfId_writeES_self]
          rfl
      | some hd =>
          cases hb : aget es.buckets ev with
          | none =>
              simp only [hb]
              rw [hes]
              simp [offES, hb]
          | some bucket =>
              cases hemp : (setDelete bucket hd).isEmpty with
              | true =>
                  have h0 : setDelete bucket hd = [] := by simpa using hemp
                  simp only [hb, hemp, if_true]
                  rw [eventStoreOfId_writeES_self]
                  simp [offES, hb, h0]
              | false =>
                  have h0 : setDelete bucket hd ≠ [] := by simpa using hemp
                  simp only [hb, hemp, Bool.false_eq_true, if_false]
                  rw [eventStoreOfId_writeES_self]
                  simp [offES, hb, h0]

theorem eventStoreOfId_offNode_ne (s : State) (n : Node) (ev : String)
    (hdo : Option Nat) (nid : Nat) (hne : nid ≠ n.id) :
    eventStoreOfId (offNode s n ev hdo) nid = eventStoreOfId s nid := by
  unfold offNode
  rw [getEventStore_eq]
  cases hes : eventStoreOfId s n.id with
  | none => rfl
  | some es =>
      cases hdo with
      | none =>
          rw [eventStoreOfId_writeES_ne _ _ _ _ hne]
          unfold removeBridge
          cases aget es.native ev with
          | none => rfl
          | some lid => rfl
      | some hd =>
          cases hb : aget es.buckets ev with
          | none => simp only [hb]
          | some bucket =>
              cases hemp : (setDelete bucket hd).isEmpty with
              | true =>
                  simp only [hb, hemp, if_true]
                  rw [eventStoreOfId_writeES_ne _ _ _ _ hne]
                  unfold removeBridge
                  cases aget es.native ev with
                  | none => rfl
                  | some lid => rfl
              | false =>
                  simp only [hb, hemp, Bool.false_eq_true, if_false]
                  rw [eventStoreOfId_writeES_ne _ _ _ _ hne]

theorem goodES_empty : GoodES ⟨[], []⟩ := by
  refine ⟨?_, ?_, ?_⟩
  · intro ev l h
    simp [aget] at h
  · intro ev
    simp [aget]
  · simp

theorem goodES_onES (eso : Option EventStore)
    (h : ∀ es, eso = some es → GoodES es) (ev : String) (hd lid : Nat) :
    GoodES (onES eso ev hd lid) := by
  have hes : GoodES (eso.getD ⟨[], []⟩) := by
    cases eso with
    | none => exact goodES_empty
    | some es => exact h es rfl
  obtain ⟨h1, h2, h3⟩ := hes
  simp only [onES]
  cases hb : aget (eso.getD ⟨[], []⟩).buckets ev with
  | some bucket =>
      simp only [hb]
      refine ⟨?_, ?_, h3⟩
      · intro ev' l hl
        by_cases hev : ev' = ev
        · subst hev
          rw [aget_aset_self] at hl
          cases hl
          exact setAdd_ne_nil _ _
        · rw [aget_aset_ne _ _ _ _ hev] at hl
          exact h1 ev' l hl
      · intro ev'
        by_cases hev : ev' = ev
        · subst hev
          rw [aget_aset_self]
          rw [← h2 ev', hb]
          rfl
        · rw [aget_aset_ne _ _ _ _ hev]
          exact h2 ev'
  | none =>
      simp only [hb]
      have hnat : aget (eso.getD ⟨[], []⟩).native ev = none := by
        have hx := h2 ev
        rw [hb] at hx
        cases hn : aget (eso.getD ⟨[], []⟩).native ev with
        | none => rfl
        | some lid' =>
            rw [hn] at hx
            simp at hx
      refine ⟨?_, ?_, ?_⟩
      · intro ev' l hl
        by_cases hev : ev' = ev
        · subst hev
          rw [aget_aset_self] at hl
          cases hl
          exact setAdd_ne_nil _ _
        · rw [aget_aset_ne _ _ _ _ hev] at hl
          exact h1 ev' l hl
      · intro ev'
        by_cases hev : ev' = ev
        · subst hev
          rw [aget_aset_self, aget_aset_self]
          rfl
        · rw [aget_aset_ne _ _ _ _ hev, aget_aset_ne _ _ _ _ hev]
          exact h2 ev'
      · rw [aset_map_fst_of_none _ _ _ hnat]
        have hnm : ev ∉ (eso.getD ⟨[], []⟩).native.map Prod.fst :=
          (aget_eq_none_iff _ _).mp hnat
        simp [List.nodup_append, h3, hnm]

theorem goodES_offES (es : EventStore) (h : GoodES es) (ev : String)
    (hdo : Option Nat) : GoodES (offES es ev hdo) := by
  obtain ⟨h1, h2, h3⟩ := h
  have hdel : GoodES ⟨adel es.buckets ev, adel es.native ev⟩ := by
    refine ⟨?_, ?_, ?_⟩
    · intro ev' l hl
      by_cases hev : ev' = ev
      · subst hev
        rw [aget_adel_self] at hl
        cases hl
      · rw [aget_adel_ne _ _ _ hev] at hl
        exact h1 ev' l hl
    · intro ev'
      by_cases hev : ev' = ev
      · subst hev
        rw [aget_adel_self, aget_adel_self]
        rfl
      · rw [aget_adel_ne _ _ _ hev, aget_adel_ne _ _ _ hev]
        exact h2 ev'
    · exact h3.sublist ((adel_sublist es.native ev).map Prod.fst)
  simp only [offES]
  cases hdo with
  | none => exact hdel
  | some hd =>
      cases hb : aget es.buckets ev with
      | none =>
          simp only [hb]
          exact ⟨h1, h2, h3⟩
      | some bucket =>
          simp only [hb]
          cases hemp : (setDelete bucket hd).isEmpty with
          | true => simpa [hemp] using hdel
          | false =>
              simp only [hemp, Bool.false_eq_true, if_false]
              refine ⟨?_, ?_, h3⟩
              · intro ev' l hl
                by_cases hev : ev' = ev
                · subst hev
                  rw [aget_aset_self] at hl
                  cases hl
                  simpa using hemp
                · rw [aget_aset_ne _ _ _ _ hev] at hl
                  exact h1 ev' l hl
              · intro ev'
                by_cases hev : ev' = ev
                · subst hev
                  rw [aget_aset_self]
                  rw [← h2 ev', hb]
                  rfl
                · rw [aget_aset_ne _ _ _ _ hev]
                  exact h2 ev'

theorem invS_init : InvS initState := by
  intro nid es h
  simp [eventStoreOfId, initState, State.mapOf, aget] at h

theorem invS_onNode (s : State) (n : Node) (ev : String) (hd : Nat)
    (h : InvS s) : InvS (onNode s n ev hd) := by
  intro nid es' hes'
  by_cases hn : nid = n.id
  · subst hn
    obtain ⟨lid, heq⟩ := eventStoreOfId_onNode_self s n ev hd
    rw [heq] at hes'
    cases hes'
    exact goodES_onES _ (fun es0 h0 => h n.id es0 h0) ev hd lid
  · rw [eventStoreOfId_onNode_ne _ _ _ _ _ hn] at hes'
    exact h nid es' hes'

theorem invS_offNode (s : State) (n : Node) (ev : String) (hdo : Option Nat)
    (h : InvS s) : InvS (offNode s n ev hdo) := by
  intro nid es' hes'
  by_cases hn : nid = n.id
  · subst hn
    rw [eventStoreOfId_offNode_self] at hes'
    cases hes0 : eventStoreOfId s n.id with
    | none => rw [hes0] at hes'; cases hes'
    | some es0 =>
        rw [hes0] at hes'
        simp only [Option.map_some'] at hes'
        cases hes'
        exact goodES_offES es0 (h n.id es0 hes0) ev hdo
  · rw [eventStoreOfId_offNode_ne _ _ _ _ _ hn] at hes'
    exact h nid es' hes'

theorem invS_on_fold (ns : List Node) (ev : String) (hd : Nat) :
    ∀ s : State, InvS s → InvS (ns.foldl (fun s n => onNode s n ev hd) s) := by
  induction ns with
  | nil => intro s h; exact h
  | cons n tl ih =>
      intro s h
      exact ih _ (invS_onNode s n ev hd h)

theorem invS_off_fold (ns : List Node) (ev : String) (hdo : Option Nat) :
    ∀ s : State, InvS s → InvS (ns.foldl (fun s n => offNode s n ev hdo) s) := by
  induction ns with
  | nil => intro s h; exact h
  | cons n tl ih =>
      intro s h
      exact ih _ (invS_offNode s n ev hdo h)

theorem invS_applyEvOp (s : State) (op : EvOp) (h : InvS s) :
    InvS (applyEvOp s op) := by
  cases op with
  | onE ns ev hd => exact invS_on_fold ns ev hd s h
  | offE ns ev hdo => exact invS_off_fold ns ev hdo s h

theorem invS_runEvOps (ops : List EvOp) : InvS (runEvOps ops) := by
  unfold runEvOps
  have : ∀ s : State, InvS s → InvS (ops.foldl applyEvOp s) := by
    induction ops with
    | nil => intro s h; exact h
    | cons op tl ih => intro s h; exact ih _ (invS_applyEvOp s op h)
  exact this initState invS_init

theorem bridgeCount_of_invS (s : State) (hinv : InvS s) (nid : Nat) (ev : String) :
    bridgeCount s nid ev = (if handlersOf s nid ev = [] then 0 else 1) ∧
    bucketPresent s nid ev = !(handlersOf s nid ev).isEmpty := by
  cases hes : eventStoreOfId s nid with
  | none => simp [bridgeCount, handlersOf, bucketPresent, hes]
  | some es =>
      obtain ⟨h1, h2, h3⟩ := hinv nid es hes
      cases hb : aget es.buckets ev with
      | none =>
          have hnat : aget es.native ev = none := by
            have := h2 ev
            rw [hb] at this
            cases hn : aget es.native ev with
            | none => rfl
            | some lid => rw [hn] at this; simp at this
          simp [bridgeCount, handlersOf, bucketPresent, hes, hb,
                filter_key_eq_nil es.native ev hnat]
      | some l =>
          have hl : l ≠ [] := h1 ev l hb
          have hnat : ∃ lid, aget es.native ev = some lid := by
            have := h2 ev
            rw [hb] at this
            cases hn : aget es.native ev with
            | none => rw [hn] at this; simp at this
            | some lid => exact ⟨lid, rfl⟩
          obtain ⟨lid, hlid⟩ := hnat
          simp [bridgeCount, handlersOf, bucketPresent, hes, hb, hl,
                filter_key_length_one es.native ev lid h3 hlid,
                List.isEmpty_iff, hl]

theorem aset_aset {κ ν : Type} [DecidableEq κ] (m : List (κ × ν)) (k : κ) (v v' : ν) :
    aset (aset m k v) k v' = aset m k v' := by
  induction m with
  | nil => simp [aset]
  | cons e tl ih =>
      by_cases he : e.1 = k
      · simp [aset, he]
      · simp [aset, he, ih]

theorem setMap_setMap (s : State) (nid : Nat) (dm dm' : ElementDataMap) :
    (s.setMap nid dm).setMap nid dm' = s.setMap nid dm' := by
  unfold State.setMap
  simp only
  rw [aset_aset]

theorem mapOf_writeES_self (s : State) (n : Node) (es : EventStore) :
    (writeES s n es).mapOf n.id
      = some ⟨aset ((s.mapOf n.id).getD ⟨[], none⟩).entries EVENT_STORE_KEY (Value.store es),
              ((s.mapOf n.id).getD ⟨[], none⟩).proxy⟩ := by
  unfold writeES
  exact mapOf_setMap_self _ _ _

theorem ensureEventStore_writeES (s : State) (n : Node) (es : EventStore) :
    ensureEventStore (writeES s n es) n = (es, writeES s n es) := by
  refine ensureEventStore_of_store _ _ _ _ (mapOf_writeES_self s n es) ?_
  rw [aget_aset_self]
  rfl

theorem writeES_writeES (s : State) (n : Node) (es : EventStore) :
    writeES (writeES s n es) n es = writeES s n es := by
  unfold writeES
  rw [mapOf_setMap_self]
  simp only [Option.getD_some, aset_aset]
  rw [setMap_setMap]

theorem onNode_writeES (sX : State) (n : Node) (ev : String) (hd : Nat)
    (esY : EventStore) (b : List Nat) (hbk : aget esY.buckets ev = some b)
    (hmem : hd ∈ b) :
    onNode (writeES sX n esY) n ev hd = writeES sX n esY := by
  unfold onNode
  rw [ensureEventStore_writeES]
  simp only [hbk]
  rw [setAdd_of_mem hmem, aset_of_aget_eq _ _ _ hbk]
  exact writeES_writeES sX n esY

theorem onNode_eq_writeES (s : State) (n : Node) (ev : String) (hd : Nat) :
    ∃ sX esY b, onNode s n ev hd = writeES sX n esY ∧
      aget esY.buckets ev = some b ∧ hd ∈ b := by
  unfold onNode
  rcases hp : ensureEventStore s n with ⟨es, s1⟩
  cases hb : aget es.buckets ev with
  | some bucket =>
      simp only [hb]
      exact ⟨s1, _, setAdd bucket hd, rfl, aget_aset_self _ _ _, mem_setAdd _ _⟩
  | none =>
      simp only [hb, supportsListeners, if_true]
      exact ⟨_, _, setAdd [] hd, rfl, aget_aset_self _ _ _, mem_setAdd _ _⟩

theorem onNode_idem (s : State) (n : Node) (ev : String) (hd : Nat) :
    onNode (onNode s n ev hd) n ev hd = onNode s n ev hd := by
  obtain ⟨sX, esY, b, h1, h2, h3⟩ := onNode_eq_writeES s n ev hd
  rw [h1]
  exact onNode_writeES sX n ev hd esY b h2 h3

theorem handlersOf_none (s : State) (nid : Nat) (ev : String)
    (hes : eventStoreOfId s nid = none) : handlersOf s nid ev = [] := by
  unfold handlersOf
  rw [hes]

theorem handlersOf_some (s : State) (nid : Nat) (ev : String) (es : EventStore)
    (hes : eventStoreOfId s nid = some es) :
    handlersOf s nid ev = (aget es.buckets ev).getD [] := by
  unfold handlersOf
  rw [hes]

theorem handlersOf_eq (s : State) (nid : Nat) (ev : String) :
    handlersOf s nid ev
      = (aget ((eventStoreOfId s nid).getD ⟨[], []⟩).buckets ev).getD [] := by
  cases hes : eventStoreOfId s nid with
  | none =>
      rw [handlersOf_none s nid ev hes]
      simp [aget]
  | some es =>
      rw [handlersOf_some s nid ev es hes]
      rfl

theorem handlersOf_onNode_self (s : State) (n : Node) (ev : String) (hd : Nat) :
    handlersOf (onNode s n ev hd) n.id ev = setAdd (handlersOf s n.id ev) hd := by
  obtain ⟨lid, heq⟩ := eventStoreOfId_onNode_self s n ev hd
  rw [handlersOf_eq, heq, handlersOf_eq]
  simp only [Option.getD_some, onES]
  cases hb : aget ((eventStoreOfId s n.id).getD ⟨[], []⟩).buckets ev with
  | some b =>
      simp only [hb]
      rw [aget_aset_self]
      rfl
  | none =>
      simp only [hb]
      rw [aget_aset_self]
      rfl

theorem triggerNode_of_empty (s : State) (n : Node) (name : String) (detail : Value)
    (args : List Value) (hret : Nat → Value)
    (hempty : handlersOf s n.id name = []) :
    triggerNode s name detail args hret n = none := by
  unfold triggerNode
  rw [getEventStore_eq]
  cases hes : eventStoreOfId s n.id with
  | none => rfl
  | some es =>
      rw [handlersOf_some s n.id name es hes] at hempty
      cases hb : aget es.buckets name with
      | none => simp [hb]
      | some b =>
          rw [hb] at hempty
          simp only [Option.getD_some] at hempty
          subst hempty
          simp [hb]

theorem triggerNode_of_handlers (s : State) (n : Node) (name : String) (detail : Value)
    (args : List Value) (hret : Nat → Value) (l : List Nat)
    (hl : handlersOf s n.id name = l) (hne : l ≠ []) :
    triggerNode s name detail args hret n
      = some (runHandlers n (createSyntheticEvent name (some n.id) detail) args hret l) := by
  unfold triggerNode
  rw [getEventStore_eq]
  cases hes : eventStoreOfId s n.id with
  | none =>
      rw [handlersOf_none s n.id name hes] at hl
      exact absurd hl.symm hne
  | some es =>
      rw [handlersOf_some s n.id name es hes] at hl
      cases hb : aget es.buckets name with
      | none =>
          rw [hb] at hl
          simp only [Option.getD_none] at hl
          exact absurd hl.symm hne
      | some b =>
          rw [hb] at hl
          simp only [Option.getD_some] at hl
          subst hl
          have hemp : b.isEmpty = false := by
            cases hq : b.isEmpty
            · rfl
            · exact absurd (by simpa using hq) hne
          simp [hb, hemp]

theorem aget_mem {κ ν : Type} [DecidableEq κ] (m : List (κ × ν)) (k : κ) (v : ν)
    (h : aget m k = some v) : (k, v) ∈ m := by
  induction m with
  | nil => simp [aget] at h
  | cons e tl ih =>
      by_cases he : e.1 = k
      · simp [aget, he] at h
        obtain ⟨e1, e2⟩ := e
        simp only at he h
        simp [he, h]
      · simp [aget, he] at h
        simp [ih h]

theorem aget_foldl_aset (l : List (String × Value)) (m0 : List (String × Value))
    (k : String) :
    aget (l.foldl (fun m e => aset m e.1 e.2) m0) k
      = match lastEntry l k with
        | some v => some v
        | none => aget m0 k := by
  induction l generalizing m0 with
  | nil => simp [lastEntry]
  | cons a tl ih =>
      simp only [List.foldl_cons, ih, lastEntry]
      cases hlast : lastEntry tl k with
      | some v => rfl
      | none =>
          by_cases hk : a.1 = k
          · subst hk
            simp [aget_aset_self]
          · rw [aget_aset_ne _ _ _ _ (Ne.symm hk)]
            simp [hk]

theorem getNodeData_fst (s : State) (n : Node) :
    (getNodeData s n).1 = (s.mapOf n.id).getD ⟨[], none⟩ := by
  unfold getNodeData
  cases hm : s.mapOf n.id <;> rfl

theorem getNodeData_mapOf_self (s : State) (n : Node) :
    ((getNodeData s n).2).mapOf n.id = some ((s.mapOf n.id).getD ⟨[], none⟩) := by
  unfold getNodeData
  cases hm : s.mapOf n.id with
  | none => exact mapOf_setMap_self _ _ _
  | some dm => exact hm

theorem getNodeData_mapOf_ne (s : State) (n : Node) (nid : Nat) (hne : nid ≠ n.id) :
    ((getNodeData s n).2).mapOf nid = s.mapOf nid := by
  unfold getNodeData
  cases hm : s.mapOf n.id with
  | none => exact mapOf_setMap_ne _ _ _ _ hne
  | some dm => rfl

theorem getNodeData_nextOid (s : State) (n : Node) :
    ((getNodeData s n).2).nextOid = s.nextOid := by
  unfold getNodeData
  cases s.mapOf n.id <;> rfl

theorem getNodeData_heap (s : State) (n : Node) :
    ((getNodeData s n).2).heap = s.heap := by
  unfold getNodeData
  cases s.mapOf n.id <;> rfl

theorem data_setKey_eq (n : Node) (rest : List Node) (k : String) (v : Value)
    (hv : v ≠ .undef) (s : State) :
    DOMElement.data ⟨n :: rest⟩ (.setKey k v) s
      = (.self, ((getNodeData s n).2).setMap n.id
          { (getNodeData s n).1 with
            entries := aset ((getNodeData s n).1).entries k v }) := by
  simp only [DOMElement.data]
  cases v with
  | undef => exact absurd rfl hv
  | null => rfl
  | bool b => rfl
  | num i => rfl
  | str t => rfl
  | arr l => rfl
  | obj o => rfl
  | store es => rfl

theorem data_getKey_eq (n : Node) (rest : List Node) (k : String) (s : State) :
    DOMElement.data ⟨n :: rest⟩ (.getKey k) s
      = (.value ((aget ((getNodeData s n).1).entries k).getD .undef),
         (getNodeData s n).2) := rfl

theorem data_entriesRec_eq (n : Node) (rest : List Node)
    (entries : List (String × Value)) (s : State) :
    DOMElement.data ⟨n :: rest⟩ (.entriesRec entries) s
      = (.self, ((getNodeData s n).2).setMap n.id
          { (getNodeData s n).1 with
            entries := entries.foldl (fun m e => aset m e.1 e.2)
                         ((getNodeData s n).1).entries }) := rfl

theorem data_noKey_cached (n : Node) (rest : List Node) (s : State) (oid : Nat)
    (hproxy : ((getNodeData s n).1).proxy = some oid) :
    DOMElement.data ⟨n :: rest⟩ .noKey s = (.value (.obj oid), (getNodeData s n).2) := by
  simp only [DOMElement.data, List.head?_cons]
  rw [hproxy]

theorem data_noKey_fresh (n : Node) (rest : List Node) (s : State)
    (hproxy : ((getNodeData s n).1).proxy = none) :
    DOMElement.data ⟨n :: rest⟩ .noKey s
      = (.value (.obj ((getNodeData s n).2).nextOid),
         (((getNodeData s n).2).alloc (.proxyView n.id)).2.setMap n.id
           { (getNodeData s n).1 with proxy := some ((getNodeData s n).2).nextOid }) := by
  simp only [DOMElement.data, List.head?_cons]
  rw [hproxy]
  rfl

theorem getNodeData_of_some (s : State) (n : Node) (dm : ElementDataMap)
    (hm : s.mapOf n.id = some dm) : getNodeData s n = (dm, s) := by
  unfold getNodeData
  rw [hm]

theorem proxyOidOf_fst (s : State) (n : Node) :
    proxyOidOf s n.id = ((getNodeData s n).1).proxy := by
  unfold proxyOidOf
  rw [getNodeData_fst]
  cases s.mapOf n.id <;> rfl

theorem dmOfNode_proxySet (s : State) (nid : Nat) (k : String) (v : Value) :
    dmOfNode (proxySet s nid k v) nid
      = { dmOfNode s nid with entries := aset (dmOfNode s nid).entries k v } := by
  simp only [proxySet]
  unfold dmOfNode
  rw [mapOf_setMap_self]
  rfl

theorem proxyGet_proxySet (s : State) (nid : Nat) (k : String) (v : Value)
    (hk : ¬(k = "get" ∨ k = "set" ∨ k = "has")) :
    proxyGet (proxySet s nid k v) nid k = (v, proxySet s nid k v) := by
  unfold proxyGet
  rw [if_neg hk, dmOfNode_proxySet]
  rw [if_neg ?hcond]
  case hcond =>
      rintro ⟨hf, hnh⟩
      apply hnh
      subst hf
      unfold ahas
      simp [aget_aset_self]
  simp [aget_aset_self]

theorem filter_self_length_one (l : List Nat) (x : Nat) (hn : l.Nodup) (hm : x ∈ l) :
    (l.filter (fun y => y == x)).length = 1 := by
  induction l with
  | nil => cases hm
  | cons a tl ih =>
      simp only [List.nodup_cons] at hn
      by_cases ha : a = x
      · subst ha
        have hnil : tl.filter (fun y => y == a) = [] := by
          rw [List.filter_eq_nil_iff]
          intro b hb
          simp only [beq_iff_eq]
          intro hba
          exact hn.1 (hba ▸ hb)
        simp [List.filter, hnil]
      · have hmem : x ∈ tl := by
          rcases List.mem_cons.mp hm with h1 | h1
          · exact absurd h1.symm ha
          · exact h1
        have hbf : (a == x) = false := beq_eq_false_iff_ne.mpr ha
        simp [List.filter, hbf, ih hn.2 hmem]

theorem filter_fst_map_pair (l : List Nat) (args : List Value) (x : Nat) :
    ((l.map (fun hd => (hd, args))).filter (fun c => c.1 == x)).length
      = (l.filter (fun y => y == x)).length := by
  induction l with
  | nil => rfl
  | cons a tl ih => cases hax : (a == x) <;> simp [List.filter, hax, ih]

theorem triggerNode_some_inv (s : State) (n : Node) (name : String) (detail : Value)
    (args : List Value) (hret : Nat → Value) (d : Dispatch)
    (h : triggerNode s name detail args hret n = some d) :
    d.event.detail = detail ∧ ∀ c ∈ d.calls, c.2 = args := by
  by_cases hl : handlersOf s n.id name = []
  · rw [triggerNode_of_empty s n name detail args hret hl] at h
    cases h
  · rw [triggerNode_of_handlers s n name detail args hret _ rfl hl] at h
    injection h with h'
    subst h'
    rw [runHandlers_spec]
    refine ⟨rfl, ?_⟩
    intro c hc
    simp only [List.mem_map] at hc
    obtain ⟨hd0, _, rfl⟩ := hc
    rfl

/-- C1, counterexample: on a two-node Handle, `data(key, value)` writes the
key into the first node's backing map only — node 1's map does not receive
the key (it is never even created) — so the claim that every node's map
receives the entry is false. -/
theorem c1_counterexample :
    (DOMElement.data ⟨[⟨0, .element⟩, ⟨1, .element⟩]⟩ (.setKey "k" (.num 1)) initState).1
        = DataRet.self ∧
    storedData (DOMElement.data ⟨[⟨0, .element⟩, ⟨1, .element⟩]⟩
        (.setKey "k" (.num 1)) initState).2 0 "k" = some (.num 1) ∧
    storedData (DOMElement.data ⟨[⟨0, .element⟩, ⟨1, .element⟩]⟩
        (.setKey "k" (.num 1)) initState).2 1 "k" = none ∧
    ((DOMElement.data ⟨[⟨0, .element⟩, ⟨1, .element⟩]⟩
        (.setKey "k" (.num 1)) initState).2).mapOf 1 = none :=
  ⟨rfl, rfl, rfl, rfl⟩

/-- C1, amended: `data(key, value)` (value not `undefined`) stores the value
under the key in the backing map of the FIRST node only and returns the
Handle; every other node's map is untouched.  Likewise `data(record)`
merges the record's entries (last binding of a key wins) into the first
node's map only and returns the Handle. -/
theorem c1_data_writes_first_node_only (s : State) (n : Node) (rest : List Node)
    (k : String) (v : Value) (hv : v ≠ Value.undef)
    (entries : List (String × Value)) :
    ((DOMElement.data ⟨n :: rest⟩ (.setKey k v) s).1 = DataRet.self ∧
     storedData (DOMElement.data ⟨n :: rest⟩ (.setKey k v) s).2 n.id k = some v ∧
     (∀ nid, nid ≠ n.id →
        ((DOMElement.data ⟨n :: rest⟩ (.setKey k v) s).2).mapOf nid = s.mapOf nid)) ∧
    ((DOMElement.data ⟨n :: rest⟩ (.entriesRec entries) s).1 = DataRet.self ∧
     (∀ k', storedData (DOMElement.data ⟨n :: rest⟩ (.entriesRec entries) s).2 n.id k'
        = match lastEntry entries k' with
          | some v' => some v'
          | none => storedData s n.id k') ∧
     (∀ nid, nid ≠ n.id →
        ((DOMElement.data ⟨n :: rest⟩ (.entriesRec entries) s).2).mapOf nid
          = s.mapOf nid)) := by
  refine ⟨⟨?_, ?_, ?_⟩, ⟨?_, ?_, ?_⟩⟩
  · rw [data_setKey_eq n rest k v hv s]
  · rw [data_setKey_eq n rest k v hv s]
    unfold storedData
    rw [mapOf_setMap_self]
    simp [aget_aset_self]
  · intro nid hne
    rw [data_setKey_eq n rest k v hv s]
    rw [mapOf_setMap_ne _ _ _ _ hne, getNodeData_mapOf_ne _ _ _ hne]
  · rw [data_entriesRec_eq]
  · intro k'
    rw [data_entriesRec_eq]
    unfold storedData
    rw [mapOf_setMap_self]
    simp only [Option.some_bind]
    rw [aget_foldl_aset]
    cases hlast : lastEntry entries k' with
    | some v' => rfl
    | none =>
        rw [getNodeData_fst]
        cases hm : s.mapOf n.id with
        | none => simp [aget]
        | some dm => rfl
  · intro nid hne
    rw [data_entriesRec_eq]
    rw [mapOf_setMap_ne _ _ _ _ hne, getNodeData_mapOf_ne _ _ _ hne]

/-- C1, witness for the amended theorem at a concrete input. -/
theorem c1_witness :
    (Value.num 1 ≠ Value.undef) ∧
    (((DOMElement.data ⟨[⟨0, .element⟩, ⟨1, .element⟩]⟩ (.setKey "k" (.num 1)) initState).1
          = DataRet.self ∧
      storedData (DOMElement.data ⟨[⟨0, .element⟩, ⟨1, .element⟩]⟩
          (.setKey "k" (.num 1)) initState).2 (0 : Nat) "k" = some (.num 1) ∧
      (∀ nid, nid ≠ (0 : Nat) →
         ((DOMElement.data ⟨[⟨0, .element⟩, ⟨1, .element⟩]⟩
             (.setKey "k" (.num 1)) initState).2).mapOf nid = initState.mapOf nid)) ∧
     ((DOMElement.data ⟨[⟨0, .element⟩, ⟨1, .element⟩]⟩
          (.entriesRec [("a", .num 2)]) initState).1 = DataRet.self ∧
      (∀ k', storedData (DOMElement.data ⟨[⟨0, .element⟩, ⟨1, .element⟩]⟩
            (.entriesRec [("a", .num 2)]) initState).2 (0 : Nat) k'
         = match lastEntry [("a", .num 2)] k' with
           | some v' => some v'
           | none => storedData initState (0 : Nat) k') ∧
      (∀ nid, nid ≠ (0 : Nat) →
         ((DOMElement.data ⟨[⟨0, .element⟩, ⟨1, .element⟩]⟩
             (.entriesRec [("a", .num 2)]) initState).2).mapOf nid
           = initState.mapOf nid))) :=
  ⟨fun h => Value.noConfusion h,
   c1_data_writes_first_node_only initState ⟨0, .element⟩ [⟨1, .element⟩] "k"
     (.num 1) (fun h => Value.noConfusion h) [("a", .num 2)]⟩

/-- C2, counterexample: `trigger('e', 0)` carries a present payload that is
not an array, so the claim requires the one-element argument list `[0]` and
detail `0`; the source's falsy check normalises it to the empty list and an
`undefined` detail, and a registered handler receives no extra arguments. -/
theorem c2_counterexample :
    toArgsArray (.num 0) = [] ∧
    ([] : List Value) ≠ [Value.num 0] ∧
    ((DOMElement.trigger ⟨[⟨0, .element⟩]⟩ "e" (.num 0) (fun _ => .undef)
        ((DOMElement.on ⟨[⟨0, .element⟩]⟩ "e" 7 initState).2)).2.map
      (fun d => (d.event.detail, d.calls)))
      = [(Value.undef, [(7, ([] : List Value))])] :=
  ⟨rfl, by simp, rfl⟩

/-- C2, amended: an absent or otherwise falsy payload gives the empty
argument list, an array payload gives its elements in order, any other
truthy payload gives a one-element list; the detail is `undefined` for an
empty list, the sole argument for a singleton and the whole list otherwise;
every delivered handler call carries the synthetic event's detail so
derived and the argument list; and `trigger('turned', [3, [3,4]])` invokes
the registered handler with detail `[3,[3,4]]` and extra arguments `3` and
`[3,4]`. -/
theorem c2_trigger_normalization :
    (∀ p : Value, truthy p = false → toArgsArray p = []) ∧
    (∀ el : List Value, toArgsArray (.arr el) = el) ∧
    (∀ p : Value, truthy p = true → (∀ el, p ≠ .arr el) → toArgsArray p = [p]) ∧
    (toDetailValue [] = .undef) ∧
    (∀ a : Value, toDetailValue [a] = a) ∧
    (∀ (a b : Value) (tl : List Value),
       toDetailValue (a :: b :: tl) = .arr (a :: b :: tl)) ∧
    (∀ (s : State) (h : DOMElement) (name : String) (p : Value) (hret : Nat → Value),
       ∀ d ∈ (DOMElement.trigger h name p hret s).2,
         d.event.detail = toDetailValue (toArgsArray p) ∧
         ∀ c ∈ d.calls, c.2 = toArgsArray p) ∧
    (((DOMElement.trigger ⟨[⟨0, .element⟩]⟩ "turned"
          (.arr [.num 3, .arr [.num 3, .num 4]]) (fun _ => .undef)
          ((DOMElement.on ⟨[⟨0, .element⟩]⟩ "turned" 7 initState).2)).2.map
        (fun d => (d.event.detail, d.calls)))
        = [(Value.arr [.num 3, .arr [.num 3, .num 4]],
            [(7, [Value.num 3, Value.arr [.num 3, .num 4]])])]) := by
  refine ⟨?_, ?_, ?_, rfl, fun a => rfl, fun a b tl => rfl, ?_, rfl⟩
  · intro p hp
    simp [toArgsArray, hp]
  · intro el
    rfl
  · intro p hp hne
    simp only [toArgsArray, hp, Bool.not_true]
    cases p with
    | arr el => exact absurd rfl (hne el)
    | undef => rfl
    | null => rfl
    | bool b => rfl
    | num i => rfl
    | str t => rfl
    | obj o => rfl
    | store es => rfl
  · intro s h name p hret d hd
    simp only [DOMElement.trigger] at hd
    rw [List.mem_filterMap] at hd
    obtain ⟨n, _, hsome⟩ := hd
    exact triggerNode_some_inv s n name _ _ hret d hsome

/-- C2, witness: the amended normalisation applied at concrete inputs. -/
theorem c2_witness :
    (truthy (Value.num 0) = false ∧ toArgsArray (Value.num 0) = []) ∧
    (truthy (Value.str "x") = true ∧ (∀ el, Value.str "x" ≠ Value.arr el) ∧
     toArgsArray (Value.str "x") = [Value.str "x"]) :=
  ⟨⟨rfl, c2_trigger_normalization.1 (Value.num 0) rfl⟩,
   ⟨rfl, fun _ h => Value.noConfusion h,
    c2_trigger_normalization.2.2.1 (Value.str "x") rfl (fun _ h => Value.noConfusion h)⟩⟩

/-- C3: after any sequence of `on`/`off` calls from the pristine state, the
`EventStore` of every node holds exactly one native bridge entry for a name
exactly when the handler set for that name is non-empty, and a bucket entry
exists exactly when the handler set is non-empty (buckets are deleted when
they empty). -/
theorem c3_bridge_iff_handlers (ops : List EvOp) (nid : Nat) (ev : String) :
    bridgeCount (runEvOps ops) nid ev
      = (if handlersOf (runEvOps ops) nid ev = [] then 0 else 1) ∧
    bucketPresent (runEvOps ops) nid ev
      = !(handlersOf (runEvOps ops) nid ev).isEmpty :=
  bridgeCount_of_invS _ (invS_runEvOps ops) nid ev

theorem mapOf_proxySet_self (s : State) (nid : Nat) (k : String) (v : Value) :
    (proxySet s nid k v).mapOf nid
      = some { dmOfNode s nid with entries := aset (dmOfNode s nid).entries k v } := by
  simp only [proxySet]
  exact mapOf_setMap_self _ _ _

theorem dmOfNode_eq_of_mapOf (s : State) (nid : Nat) (dm : ElementDataMap)
    (hm : s.mapOf nid = some dm) : dmOfNode s nid = dm := by
  unfold dmOfNode
  rw [hm]
  rfl

theorem data_noKey_of_mapOf (n : Node) (rest : List Node) (s : State)
    (dm : ElementDataMap) (oid : Nat) (hm : s.mapOf n.id = some dm)
    (hp : dm.proxy = some oid) :
    DOMElement.data ⟨n :: rest⟩ .noKey s = (.value (.obj oid), s) := by
  have hpx : ((getNodeData s n).1).proxy = some oid := by
    rw [getNodeData_fst, hm]
    exact hp
  rw [data_noKey_cached n rest s oid hpx, getNodeData_of_some s n dm hm]

/-- C4: on a node with no cached live view, the first no-argument `data()`
call allocates the proxy (the next object id) and caches it; every later
no-argument `data()` on a Handle whose first node is that node returns the
identical object and leaves the state unchanged; a value written through
the view is read back through the view on a later independent access. -/
theorem c4_live_view (s : State) (n : Node) (rest rest' : List Node)
    (k : String) (v : Value)
    (hproxy : proxyOidOf s n.id = none)
    (hk : ¬(k = "get" ∨ k = "set" ∨ k = "has")) :
    (DOMElement.data ⟨n :: rest⟩ .noKey s).1 = .value (.obj s.nextOid) ∧
    aget ((DOMElement.data ⟨n :: rest⟩ .noKey s).2).heap s.nextOid
        = some (.proxyView n.id) ∧
    DOMElement.data ⟨n :: rest'⟩ .noKey (DOMElement.data ⟨n :: rest⟩ .noKey s).2
        = (.value (.obj s.nextOid), (DOMElement.data ⟨n :: rest⟩ .noKey s).2) ∧
    DOMElement.data ⟨n :: rest'⟩ .noKey
        (proxySet (DOMElement.data ⟨n :: rest⟩ .noKey s).2 n.id k v)
        = (.value (.obj s.nextOid),
           proxySet (DOMElement.data ⟨n :: rest⟩ .noKey s).2 n.id k v) ∧
    proxyGet (proxySet (DOMElement.data ⟨n :: rest⟩ .noKey s).2 n.id k v) n.id k
        = (v, proxySet (DOMElement.data ⟨n :: rest⟩ .noKey s).2 n.id k v) := by
  have hpf : ((getNodeData s n).1).proxy = none := by
    rw [← proxyOidOf_fst]
    exact hproxy
  have hDF := data_noKey_fresh n rest s hpf
  have hm2 : ((DOMElement.data ⟨n :: rest⟩ .noKey s).2).mapOf n.id
      = some { (getNodeData s n).1 with proxy := some s.nextOid } := by
    rw [hDF]
    show ((((getNodeData s n).2).alloc (.proxyView n.id)).2.setMap n.id
          { (getNodeData s n).1 with proxy := some ((getNodeData s n).2).nextOid }).mapOf n.id
        = _
    rw [mapOf_setMap_self, getNodeData_nextOid]
  refine ⟨?_, ?_, ?_, ?_, ?_⟩
  · rw [hDF, getNodeData_nextOid]
  · rw [hDF]
    simp only [State.setMap, State.alloc]
    rw [getNodeData_nextOid, getNodeData_heap]
    simp [aget]
  · exact data_noKey_of_mapOf n rest' _ _ s.nextOid hm2 rfl
  · refine data_noKey_of_mapOf n rest' _ _ s.nextOid (mapOf_proxySet_self _ _ _ _) ?_
    rw [dmOfNode_eq_of_mapOf _ _ _ hm2]
  · exact proxyGet_proxySet _ _ _ _ hk

/-- C4, witness at a concrete node and key. -/
theorem c4_witness :
    (proxyOidOf initState 0 = none) ∧
    ¬("counter" = "get" ∨ "counter" = "set" ∨ "counter" = "has") ∧
    ((DOMElement.data ⟨[⟨0, .element⟩]⟩ .noKey initState).1
        = .value (.obj initState.nextOid) ∧
     aget ((DOMElement.data ⟨[⟨0, .element⟩]⟩ .noKey initState).2).heap initState.nextOid
        = some (.proxyView 0) ∧
     DOMElement.data ⟨[⟨0, .element⟩]⟩ .noKey
         (DOMElement.data ⟨[⟨0, .element⟩]⟩ .noKey initState).2
        = (.value (.obj initState.nextOid),
           (DOMElement.data ⟨[⟨0, .element⟩]⟩ .noKey initState).2) ∧
     DOMElement.data ⟨[⟨0, .element⟩]⟩ .noKey
         (proxySet (DOMElement.data ⟨[⟨0, .element⟩]⟩ .noKey initState).2 0 "counter" (.num 1))
        = (.value (.obj initState.nextOid),
           proxySet (DOMElement.data ⟨[⟨0, .element⟩]⟩ .noKey initState).2 0 "counter" (.num 1)) ∧
     proxyGet (proxySet (DOMElement.data ⟨[⟨0, .element⟩]⟩ .noKey initState).2
         0 "counter" (.num 1)) 0 "counter"
        = (.num 1,
           proxySet (DOMElement.data ⟨[⟨0, .element⟩]⟩ .noKey initState).2
             0 "counter" (.num 1))) :=
  ⟨rfl, by decide,
   c4_live_view initState ⟨0, .element⟩ [] [] "counter" (.num 1) rfl (by decide)⟩

/-- C5: registering the same handler twice for the same name on a node is a
no-op — the second `on` call leaves the whole state unchanged — and one
trigger of that name invokes the handler exactly once. -/
theorem c5_on_dedup (s : State) (n : Node) (ev : String) (hd : Nat)
    (payload : Value) (hret : Nat → Value)
    (hnd : (handlersOf s n.id ev).Nodup) :
    (DOMElement.on ⟨[n]⟩ ev hd ((DOMElement.on ⟨[n]⟩ ev hd s).2)).2
        = (DOMElement.on ⟨[n]⟩ ev hd s).2 ∧
    callsTo (DOMElement.trigger ⟨[n]⟩ ev payload hret
        ((DOMElement.on ⟨[n]⟩ ev hd s).2)).2 hd = 1 := by
  constructor
  · exact onNode_idem s n ev hd
  · have hH : handlersOf (onNode s n ev hd) n.id ev
        = setAdd (handlersOf s n.id ev) hd := handlersOf_onNode_self s n ev hd
    have hne : setAdd (handlersOf s n.id ev) hd ≠ [] := setAdd_ne_nil _ _
    have ht := triggerNode_of_handlers (onNode s n ev hd) n ev
      (toDetailValue (toArgsArray payload)) (toArgsArray payload) hret
      (setAdd (handlersOf s n.id ev) hd) hH hne
    have hcalls :
        (DOMElement.trigger ⟨[n]⟩ ev payload hret ((DOMElement.on ⟨[n]⟩ ev hd s).2)).2
          = [runHandlers n (createSyntheticEvent ev (some n.id)
               (toDetailValue (toArgsArray payload)))
               (toArgsArray payload) hret (setAdd (handlersOf s n.id ev) hd)] := by
      rw [show ((DOMElement.on ⟨[n]⟩ ev hd s).2) = onNode s n ev hd from rfl]
      simp only [DOMElement.trigger, List.filterMap_cons, List.filterMap_nil, ht]
    rw [hcalls]
    unfold callsTo
    simp only [List.map_cons, List.map_nil, List.sum_cons, List.sum_nil,
      runHandlers_spec]
    rw [filter_fst_map_pair,
        filter_self_length_one _ _ (setAdd_nodup hnd hd) (mem_setAdd _ _)]
    rfl

/-- C5, witness at a concrete node, event name and handler. -/
theorem c5_witness :
    (handlersOf initState 0 "e").Nodup ∧
    ((DOMElement.on ⟨[⟨0, .element⟩]⟩ "e" 7
        ((DOMElement.on ⟨[⟨0, .element⟩]⟩ "e" 7 initState).2)).2
        = (DOMElement.on ⟨[⟨0, .element⟩]⟩ "e" 7 initState).2 ∧
     callsTo (DOMElement.trigger ⟨[⟨0, .element⟩]⟩ "e" Value.undef (fun _ => Value.undef)
        ((DOMElement.on ⟨[⟨0, .element⟩]⟩ "e" 7 initState).2)).2 7 = 1) :=
  ⟨List.nodup_nil,
   c5_on_dedup initState ⟨0, .element⟩ "e" 7 Value.undef (fun _ => Value.undef)
     List.nodup_nil⟩

/-- C6: a name-based trigger delivery to a node with handler set `l ≠ []`
constructs exactly one synthetic event carrying the event name as type, the
node as both target and current target, and the derived detail; the
handlers are invoked in registration order, each with the argument list,
and the prevented/stopped flags end up set exactly when some handler
returned the literal `false` — delivery reaches every handler regardless. -/
theorem c6_single_synthetic_event (s : State) (n : Node) (name : String)
    (payload : Value) (hret : Nat → Value) (l : List Nat)
    (hl : handlersOf s n.id name = l) (hne : l ≠ []) :
    (DOMElement.trigger ⟨[n]⟩ name payload hret s).2
      = [⟨n.id,
          ⟨name, some n.id, some n.id, toDetailValue (toArgsArray payload)⟩,
          l.map (fun hd => (hd, toArgsArray payload)),
          l.any (fun hd => isFalseLiteral (hret hd)),
          l.any (fun hd => isFalseLiteral (hret hd))⟩] := by
  have ht := triggerNode_of_handlers s n name
    (toDetailValue (toArgsArray payload)) (toArgsArray payload) hret l hl hne
  simp only [DOMElement.trigger, List.filterMap_cons, List.filterMap_nil, ht,
    runHandlers_spec, createSyntheticEvent]

/-- C6, witness: two handlers registered in order, the first returning the
literal `false`; the single synthetic event carries both flags and both
handlers are still invoked. -/
theorem c6_witness :
    handlersOf ((DOMElement.on ⟨[⟨0, .element⟩]⟩ "e" 9
        ((DOMElement.on ⟨[⟨0, .element⟩]⟩ "e" 7 initState).2)).2) 0 "e" = [7, 9] ∧
    ([7, 9] : List Nat) ≠ [] ∧
    (DOMElement.trigger ⟨[⟨0, .element⟩]⟩ "e" (.num 5)
        (fun h => if h = 7 then Value.bool false else Value.undef)
        ((DOMElement.on ⟨[⟨0, .element⟩]⟩ "e" 9
          ((DOMElement.on ⟨[⟨0, .element⟩]⟩ "e" 7 initState).2)).2)).2
      = [⟨0, ⟨"e", some 0, some 0, toDetailValue (toArgsArray (.num 5))⟩,
          [7, 9].map (fun hd => (hd, toArgsArray (.num 5))),
          [7, 9].any (fun hd => isFalseLiteral
            (if hd = 7 then Value.bool false else Value.undef)),
          [7, 9].any (fun hd => isFalseLiteral
            (if hd = 7 then Value.bool false else Value.undef))⟩] :=
  ⟨rfl, by simp,
   c6_single_synthetic_event _ ⟨0, .element⟩ "e" (.num 5)
     (fun h => if h = 7 then Value.bool false else Value.undef) [7, 9] rfl (by simp)⟩

/-- C7: when a node has no handler set for the triggered name (no data map,
no event store, no bucket, or an empty bucket — all the cases in which
`handlersOf` is empty), the name-based trigger skips the node: it yields no
dispatch, invokes no handler and, because the trigger path only reads the
store (`getEventStore` wraps `dataStore.get` and never writes), creates no
per-node state — the embedding of the string-trigger path takes the state
by value and returns none of it, mirroring that the source's path performs
no store mutation. -/
theorem c7_trigger_skips_silent_nodes (s : State) (n : Node) (name : String)
    (payload : Value) (hret : Nat → Value)
    (hempty : handlersOf s n.id name = []) :
    (∀ detail args, triggerNode s name detail args hret n = none) ∧
    DOMElement.trigger ⟨[n]⟩ name payload hret s = (⟨[n]⟩, []) := by
  constructor
  · intro detail args
    exact triggerNode_of_empty s n name detail args hret hempty
  · simp only [DOMElement.trigger, List.filterMap_cons, List.filterMap_nil,
      triggerNode_of_empty s n name _ _ hret hempty]

/-- C7, witness: triggering on a node that never had listeners. -/
theorem c7_witness :
    handlersOf initState 0 "x" = [] ∧
    ((∀ detail args,
        triggerNode initState "x" detail args (fun _ => Value.undef) ⟨0, .element⟩ = none) ∧
     DOMElement.trigger ⟨[⟨0, .element⟩]⟩ "x" Value.undef (fun _ => Value.undef) initState
        = (⟨[⟨0, .element⟩]⟩, [])) :=
  ⟨rfl, c7_trigger_skips_silent_nodes initState ⟨0, .element⟩ "x" Value.undef
     (fun _ => Value.undef) rfl⟩

/-- C8, counterexample: a keyed `data` write on an empty Handle is a safe
no-op but returns `undefined`, not the Handle — the empty-Handle guard
treats every keyed call as a read — so the claim that every listed mutator
returns the Handle is false. -/
theorem c8_counterexample :
    DOMElement.data ⟨[]⟩ (.setKey "x" (.num 1)) initState
        = (DataRet.value Value.undef, initState) ∧
    DataRet.value Value.undef ≠ DataRet.self :=
  ⟨rfl, fun h => DataRet.noConfusion h⟩

/-- C8, amended: on a Handle with zero nodes every mutator is a safe no-op
and every scalar getter returns its documented default; all the listed
mutators return the Handle except the keyed `data` writes, which return
`undefined` (the empty-Handle guard of `data` answers `undefined` for every
keyed call). -/
theorem c8_empty_handle (h : DOMElement) (he : h.nodes = [])
    (s : State) (d : DomState)
    (computed : Nat → String → String) (prop : String)
    (props : List (String × StrNum)) (attrsArg : List (String × StrNum))
    (name className : String) (child : ChildArg)
    (ev : String) (hd : Nat) (hdo : Option Nat)
    (payload : Value) (hret : Nat → Value)
    (k : String) (v : Value) (entries : List (String × Value))
    (offsetWidth offsetHeight rectTop rectLeft : Nat → Int) (scrollX scrollY : Int) :
    h.cssGet computed prop = "" ∧
    h.cssSet props d = (h, d) ∧
    h.attrGet d name = none ∧
    h.attrSet attrsArg d = (h, d) ∧
    h.addClass className d = (h, d) ∧
    h.removeClass className d = (h, d) ∧
    h.append child d = (h, d) ∧
    h.prepend child d = (h, d) ∧
    DOMElement.remove h d = (h, d) ∧
    h.on ev hd s = (h, s) ∧
    h.off ev hdo s = (h, s) ∧
    h.trigger ev payload hret s = (h, []) ∧
    h.data (.setKey k v) s = (.value .undef, s) ∧
    h.data (.entriesRec entries) s = (.value .undef, s) ∧
    h.data (.getKey k) s = (.value .undef, s) ∧
    h.width offsetWidth = 0 ∧
    h.height offsetHeight = 0 ∧
    h.offset rectTop rectLeft scrollX scrollY = ⟨0, 0⟩ := by
  obtain ⟨ns⟩ := h
  replace he : ns = [] := he
  subst he
  refine ⟨rfl, rfl, rfl, rfl, ?_, ?_, rfl, rfl, rfl, rfl, rfl, rfl, rfl, rfl,
    rfl, rfl, rfl, rfl⟩
  · simp only [DOMElement.addClass]
    split <;> rfl
  · simp only [DOMElement.removeClass]
    split <;> rfl

/-- C8, witness at concrete oracles and state. -/
theorem c8_witness :
    ((⟨[]⟩ : DOMElement).nodes = []) ∧
    ((⟨[]⟩ : DOMElement).cssGet (fun _ _ => "10px") "width" = "" ∧
     (⟨[]⟩ : DOMElement).cssSet [("width", .n 3)] ⟨[], [], [], [], [], 0⟩
        = (⟨[]⟩, ⟨[], [], [], [], [], 0⟩) ∧
     (⟨[]⟩ : DOMElement).attrGet ⟨[], [], [], [], [], 0⟩ "id" = none ∧
     (⟨[]⟩ : DOMElement).attrSet [("id", .s "a")] ⟨[], [], [], [], [], 0⟩
        = (⟨[]⟩, ⟨[], [], [], [], [], 0⟩) ∧
     (⟨[]⟩ : DOMElement).addClass "p q" ⟨[], [], [], [], [], 0⟩
        = (⟨[]⟩, ⟨[], [], [], [], [], 0⟩) ∧
     (⟨[]⟩ : DOMElement).removeClass "p q" ⟨[], [], [], [], [], 0⟩
        = (⟨[]⟩, ⟨[], [], [], [], [], 0⟩) ∧
     (⟨[]⟩ : DOMElement).append (.text "<i></i>") ⟨[], [], [], [], [], 0⟩
        = (⟨[]⟩, ⟨[], [], [], [], [], 0⟩) ∧
     (⟨[]⟩ : DOMElement).prepend (.text "<i></i>") ⟨[], [], [], [], [], 0⟩
        = (⟨[]⟩, ⟨[], [], [], [], [], 0⟩) ∧
     DOMElement.remove ⟨[]⟩ ⟨[], [], [], [], [], 0⟩ = (⟨[]⟩, ⟨[], [], [], [], [], 0⟩) ∧
     (⟨[]⟩ : DOMElement).on "e" 7 initState = (⟨[]⟩, initState) ∧
     (⟨[]⟩ : DOMElement).off "e" none initState = (⟨[]⟩, initState) ∧
     (⟨[]⟩ : DOMElement).trigger "e" Value.undef (fun _ => Value.undef) initState
        = (⟨[]⟩, []) ∧
     (⟨[]⟩ : DOMElement).data (.setKey "x" (.num 1)) initState
        = (.value .undef, initState) ∧
     (⟨[]⟩ : DOMElement).data (.entriesRec [("x", .num 1)]) initState
        = (.value .undef, initState) ∧
     (⟨[]⟩ : DOMElement).data (.getKey "x") initState = (.value .undef, initState) ∧
     (⟨[]⟩ : DOMElement).width (fun _ => 7) = 0 ∧
     (⟨[]⟩ : DOMElement).height (fun _ => 7) = 0 ∧
     (⟨[]⟩ : DOMElement).offset (fun _ => 3) (fun _ => 4) 1 2 = ⟨0, 0⟩) :=
  ⟨rfl,
   c8_empty_handle ⟨[]⟩ rfl initState ⟨[], [], [], [], [], 0⟩
     (fun _ _ => "10px") "width" [("width", .n 3)] [("id", .s "a")] "id" "p q"
     (.text "<i></i>") "e" 7 none Value.undef (fun _ => Value.undef)
     "x" (.num 1) [("x", .num 1)] (fun _ => 7) (fun _ => 7) (fun _ => 3)
     (fun _ => 4) 1 2⟩

/-- C9, counterexample: a Handle built from a caller-supplied array adopts
the very array object, so a later push by the caller changes the Handle's
node list; and `remove()` empties the node list, so the list is not fixed
at construction. -/
theorem c9_counterexample :
    ((newDOMElementA (fun _ => []) (fun _ => []) (.arraySel 0)
        (arrAlloc ⟨[], 0⟩ [⟨0, .element⟩]).2).1.nodesIn
      (newDOMElementA (fun _ => []) (fun _ => []) (.arraySel 0)
        (arrAlloc ⟨[], 0⟩ [⟨0, .element⟩]).2).2 = [⟨0, .element⟩] ∧
     (newDOMElementA (fun _ => []) (fun _ => []) (.arraySel 0)
        (arrAlloc ⟨[], 0⟩ [⟨0, .element⟩]).2).1.nodesIn
      (arrPush (newDOMElementA (fun _ => []) (fun _ => []) (.arraySel 0)
        (arrAlloc ⟨[], 0⟩ [⟨0, .element⟩]).2).2 0 ⟨1, .element⟩)
        = [⟨0, .element⟩, ⟨1, .element⟩] ∧
     ([⟨0, .element⟩] : List Node) ≠ [⟨0, .element⟩, ⟨1, .element⟩]) ∧
    ((newDOMElementA (fun _ => []) (fun _ => []) (.elementSel ⟨0, .element⟩)
        ⟨[], 0⟩).1.nodesIn
      (DOMElementA.remove (newDOMElementA (fun _ => []) (fun _ => [])
        (.elementSel ⟨0, .element⟩) ⟨[], 0⟩).1
        (newDOMElementA (fun _ => []) (fun _ => [])
          (.elementSel ⟨0, .element⟩) ⟨[], 0⟩).2).2 = []) :=
  ⟨⟨rfl, rfl, by simp⟩, rfl⟩

/-- C9, amended: the node list's order is fixed and the mutation methods
fan out without reordering or re-deriving it (they return the same
Handle), and a Handle built from an existing Handle receives a fresh
shallow copy of its list, unaffected by later writes to the source
Handle's array; but `remove()` empties the Handle's own list, and a Handle
built from a caller-supplied plain array aliases that array, so caller
mutations remain visible. -/
theorem c9_node_list_capture (q p : String → List Node) (a : ArrState)
    (h : DOMElementA) (ns : List Node) (hlt : h.nodesAid < a.nextAid)
    (h2 : DOMElement) (ev : String) (hd : Nat) (s : State)
    (props : List (String × StrNum)) (d : DomState) :
    ((newDOMElementA q p (.handle h) a).1.nodesAid = a.nextAid ∧
     (newDOMElementA q p (.handle h) a).1.nodesAid ≠ h.nodesAid ∧
     (newDOMElementA q p (.handle h) a).1.nodesIn (newDOMElementA q p (.handle h) a).2
        = h.nodesIn a ∧
     (newDOMElementA q p (.handle h) a).1.nodesIn
        (arrWrite (newDOMElementA q p (.handle h) a).2 h.nodesAid ns)
        = h.nodesIn a) ∧
    (∀ aid, (newDOMElementA q p (.arraySel aid) a).1.nodesAid = aid) ∧
    ((h.remove a).1.nodesIn (h.remove a).2 = []) ∧
    ((DOMElement.on h2 ev hd s).1 = h2 ∧
     (DOMElement.cssSet h2 props d).1 = h2 ∧
     (DOMElement.trigger h2 ev .undef (fun _ => .undef) s).1 = h2) := by
  refine ⟨⟨rfl, Ne.symm (Nat.ne_of_lt hlt), ?_, ?_⟩, fun aid => rfl, ?_,
    rfl, rfl, rfl⟩
  · simp [newDOMElementA, normalizeNodesA, arrAlloc, DOMElementA.nodesIn,
      arrRead, aget_aset_self]
  · simp only [newDOMElementA, normalizeNodesA, arrAlloc, DOMElementA.nodesIn,
      arrRead, arrWrite]
    rw [aget_aset_ne _ _ _ _ (Ne.symm (Nat.ne_of_lt hlt)), aget_aset_self]
    rfl
  · simp [DOMElementA.remove, DOMElementA.nodesIn, arrRead, arrWrite, aget_aset_self]

/-- C9, witness at a concrete store and Handle. -/
theorem c9_witness :
    ((0 : Nat) < 1) ∧
    (((newDOMElementA (fun _ => []) (fun _ => []) (.handle ⟨0⟩)
          ⟨[(0, [⟨0, .element⟩])], 1⟩).1.nodesAid = 1 ∧
      (newDOMElementA (fun _ => []) (fun _ => []) (.handle ⟨0⟩)
          ⟨[(0, [⟨0, .element⟩])], 1⟩).1.nodesAid ≠ 0 ∧
      (newDOMElementA (fun _ => []) (fun _ => []) (.handle ⟨0⟩)
          ⟨[(0, [⟨0, .element⟩])], 1⟩).1.nodesIn
        (newDOMElementA (fun _ => []) (fun _ => []) (.handle ⟨0⟩)
          ⟨[(0, [⟨0, .element⟩])], 1⟩).2
        = DOMElementA.nodesIn ⟨0⟩ ⟨[(0, [⟨0, .element⟩])], 1⟩ ∧
      (newDOMElementA (fun _ => []) (fun _ => []) (.handle ⟨0⟩)
          ⟨[(0, [⟨0, .element⟩])], 1⟩).1.nodesIn
        (arrWrite (newDOMElementA (fun _ => []) (fun _ => []) (.handle ⟨0⟩)
          ⟨[(0, [⟨0, .element⟩])], 1⟩).2 0 [])
        = DOMElementA.nodesIn ⟨0⟩ ⟨[(0, [⟨0, .element⟩])], 1⟩) ∧
     (∀ aid, (newDOMElementA (fun _ => []) (fun _ => []) (.arraySel aid)
          ⟨[(0, [⟨0, .element⟩])], 1⟩).1.nodesAid = aid) ∧
     ((DOMElementA.remove ⟨0⟩ ⟨[(0, [⟨0, .element⟩])], 1⟩).1.nodesIn
        (DOMElementA.remove ⟨0⟩ ⟨[(0, [⟨0, .element⟩])], 1⟩).2 = []) ∧
     ((DOMElement.on ⟨[⟨0, .element⟩]⟩ "e" 7 initState).1 = ⟨[⟨0, .element⟩]⟩ ∧
      (DOMElement.cssSet ⟨[⟨0, .element⟩]⟩ [("width", .n 3)] ⟨[], [], [], [], [], 0⟩).1
        = ⟨[⟨0, .element⟩]⟩ ∧
      (DOMElement.trigger ⟨[⟨0, .element⟩]⟩ "e" .undef (fun _ => .undef) initState).1
        = ⟨[⟨0, .element⟩]⟩)) :=
  ⟨by decide,
   c9_node_list_capture (fun _ => []) (fun _ => []) ⟨[(0, [⟨0, .element⟩])], 1⟩
     ⟨0⟩ [] (by decide) ⟨[⟨0, .element⟩]⟩ "e" 7 initState [("width", .n 3)]
     ⟨[], [], [], [], [], 0⟩⟩

/-- C10: on an empty Handle, every no-argument `data()` call allocates and
returns a fresh empty `Map` — the next object id, tagged `jsMap []` in the
heap — distinct across successive calls and distinct from every cached
live-view object of any node. -/
theorem c10_empty_handle_fresh_map (s : State) (hb : oidsBounded s) :
    (DOMElement.data ⟨[]⟩ .noKey s).1 = .value (.obj s.nextOid) ∧
    aget ((DOMElement.data ⟨[]⟩ .noKey s).2).heap s.nextOid = some (.jsMap []) ∧
    (DOMElement.data ⟨[]⟩ .noKey (DOMElement.data ⟨[]⟩ .noKey s).2).1
        = .value (.obj (s.nextOid + 1)) ∧
    s.nextOid + 1 ≠ s.nextOid ∧
    (∀ nid oid, proxyOidOf s nid = some oid → oid ≠ s.nextOid) := by
  refine ⟨rfl, ?_, rfl, Nat.succ_ne_self s.nextOid, ?_⟩
  · show aget ((s.nextOid, HeapObj.jsMap []) :: s.heap) s.nextOid = some (.jsMap [])
    simp [aget]
  · intro nid oid hpo heq
    unfold proxyOidOf at hpo
    cases hm : s.mapOf nid with
    | none => rw [hm] at hpo; cases hpo
    | some dm =>
        rw [hm] at hpo
        simp only [Option.some_bind] at hpo
        have hmem := aget_mem s.dataStore nid dm hm
        have hlt := hb.2 (nid, dm) hmem oid hpo
        rw [heq] at hlt
        exact lt_irrefl _ hlt

/-- C10, witness at the pristine state. -/
theorem c10_witness :
    oidsBounded initState ∧
    ((DOMElement.data ⟨[]⟩ .noKey initState).1 = .value (.obj initState.nextOid) ∧
     aget ((DOMElement.data ⟨[]⟩ .noKey initState).2).heap initState.nextOid
        = some (.jsMap []) ∧
     (DOMElement.data ⟨[]⟩ .noKey (DOMElement.data ⟨[]⟩ .noKey initState).2).1
        = .value (.obj (initState.nextOid + 1)) ∧
     initState.nextOid + 1 ≠ initState.nextOid ∧
     (∀ nid oid, proxyOidOf initState nid = some oid → oid ≠ initState.nextOid)) :=
  ⟨⟨by simp [initState], by simp [initState]⟩,
   c10_empty_handle_fresh_map initState ⟨by simp [initState], by simp [initState]⟩⟩

end PageTurn
